import Mathlib

/-!
Verification development for the observability-assistant-router repository.

Shallow embedding conventions:
- Python strings are modeled as lists of characters (abbreviation Str);
  string literals are written through String.data.
- Python floats (similarity scores, thresholds, length ratios) are modeled
  as rationals; Python ints as Int or Nat.
- Wall-clock datetimes are modeled as rational numbers measured in minutes,
  so that datetime.timedelta(minutes=t) is addition of t.
- Fallible code is modeled with Option / Except; async generators are
  modeled as functions producing the finite list of yielded events.
- The sentence-transformers model is an opaque deterministic parameter
  encode : Str -> List Rat mapping a text to its embedding vector; cosine
  similarity on pre-normalized vectors is the dot product, as in the code.
- Python list.sort is stable; it is modeled by List.insertionSort, which is
  also stable, and the output of a stable sort is uniquely determined by
  the key order, so the two agree.
-/

/-- Python str is modeled as a list of characters. -/
abbrev Str := List Char

/-- Python str.lower restricted to ASCII, as used for handles and error text. -/
def lower_str (s : Str) : Str := s.map Char.toLower

/-- Python substring test: contains_sub hay sub models the expression sub in hay. -/
def contains_sub : Str → Str → Bool
  | [], sub => sub.isEmpty
  | c :: t, sub => sub.isPrefixOf (c :: t) || contains_sub t sub

/-- Whitespace characters recognized by Python str.split with no arguments
(ASCII fragment: space, tab, newline, carriage return, vertical tab, form feed). -/
def is_py_space (c : Char) : Bool :=
  c = ' ' || c = '\t' || c = '\n' || c = '\r' || c = Char.ofNat 11 || c = Char.ofNat 12

/-- Helper for Python str.split(): the accumulator holds the current word reversed. -/
def split_ws_aux : Str → Str → List Str
  | [], acc => if acc.isEmpty then [] else [acc.reverse]
  | c :: rest, acc =>
    if is_py_space c then
      if acc.isEmpty then split_ws_aux rest [] else acc.reverse :: split_ws_aux rest []
    else split_ws_aux rest (c :: acc)

/-- Python str.split() with no arguments: split on whitespace runs, dropping empties. -/
def split_ws (s : Str) : List Str := split_ws_aux s []

/-- Joining a list of words with single spaces, as in the Python idiom
" ".join(words). -/
def join_space : List Str → Str
  | [] => []
  | [w] => w
  | w :: v :: ws => w ++ ' ' :: join_space (v :: ws)

/-- The Python idiom " ".join(s.split()): collapse whitespace runs and trim. -/
def collapse_ws (s : Str) : Str := join_space (split_ws s)

/-- Maximum of a list of rationals (np.max); the empty case never arises on the
guarded paths of the source and defaults to 0. -/
def list_max : List ℚ → ℚ
  | [] => 0
  | x :: xs => xs.foldl max x

/-- Decimal rendering of a natural number, for Python f-string interpolation. -/
def nat_str (n : ℕ) : Str := (toString n).data

/-! ## router/routing/mention.py -/

/-- Character class of the mention regex @([a-zA-Z0-9_-]+). -/
def is_mention_char (c : Char) : Bool := c.isAlphanum || c = '_' || c = '-'

/-- parse_mention: first regex match of @([a-zA-Z0-9_-]+), captured group
lowercased; none when there is no match (including the empty message). -/
def parse_mention : Str → Option Str
  | [] => none
  | [_] => none
  | c :: d :: rest =>
    if c = '@' && is_mention_char d then
      some (lower_str ((d :: rest).takeWhile is_mention_char))
    else parse_mention (d :: rest)

/-- Core of strip_mentions: MENTION_PATTERN.sub of the empty replacement.
The scan removes each leftmost match (the @ sign together with the maximal
following run of mention characters) and keeps everything else. The fuel
argument makes the recursion structural; fuel at least the length of the
input is sufficient since every step consumes at least one character. -/
def strip_core : ℕ → Str → Str
  | 0, s => s
  | _ + 1, [] => []
  | fuel + 1, c :: rest =>
    if c = '@' then
      match rest with
      | [] => ['@']
      | d :: _ =>
        if is_mention_char d then strip_core fuel (rest.dropWhile is_mention_char)
        else '@' :: strip_core fuel rest
    else c :: strip_core fuel rest

/-- strip_mentions: remove all mentions, then collapse whitespace runs to
single spaces and trim, via " ".join(result.split()). -/
def strip_mentions (s : Str) : Str :=
  if s.isEmpty then s else collapse_ws (strip_core s.length s)

/-! ## router/agents/retry.py -/

/-- RetryConfig from router/agents/retry.py. -/
structure RetryConfig where
  max_attempts : ℕ
  base_delay_ms : ℤ
  max_delay_ms : ℤ
deriving DecidableEq, Repr

/-- RetryConfig.get_delay_ms: exponential backoff capped at max_delay_ms;
attempt is the 0-indexed attempt number. -/
def get_delay_ms (cfg : RetryConfig) (attempt : ℕ) : ℤ :=
  if attempt = 0 then 0
  else min (cfg.base_delay_ms * 2 ^ (attempt - 1)) cfg.max_delay_ms

/-- Observable surface of a Python exception as consumed by
is_retryable_error: its str() rendering and an optional status_code
attribute. -/
structure PyError where
  text : Str
  status_code : Option ℤ
deriving DecidableEq, Repr

/-- The connection / timeout term list of is_retryable_error. -/
def retry_terms : List Str :=
  ["timeout".data, "timed out".data, "connection".data, "connect".data,
   "unavailable".data, "network".data]

/-- is_retryable_error from router/agents/retry.py: textual checks on the
lowercased str() of the error first, then the status_code attribute. -/
def is_retryable_error (e : PyError) : Bool :=
  let s := lower_str e.text
  if retry_terms.any (fun t => contains_sub s t) then true
  else if contains_sub s ("429".data) then true
  else if contains_sub s ("5".data) &&
      (["500".data, "502".data, "503".data, "504".data].any
        (fun t => contains_sub s t)) then true
  else
    match e.status_code with
    | some c =>
      if c = 429 || (500 ≤ c && c < 600) then true
      else if 400 ≤ c && c < 500 then false
      else false
    | none => false

/-- The classification stated by the specification sentence for claim C6,
read with HTTP status meaning the status_code attribute: retryable when the
text mentions a connection-family term or the status is 429 or 5xx,
non-retryable on any other 4xx, non-retryable by default. -/
def is_retryable_claim (e : PyError) : Bool :=
  if retry_terms.any (fun t => contains_sub (lower_str e.text) t) then true
  else if (match e.status_code with
           | some c => c = 429 || (500 ≤ c && c < 600)
           | none => false) then true
  else if (match e.status_code with
           | some c => 400 ≤ c && c < 500
           | none => false) then false
  else false

/-! ## router/config/agents.py -/

/-- Agent protocol discriminator. -/
inductive AgentProtocol
  | a2a
  | ag_ui
deriving DecidableEq, Repr

/-- AgentRoutingConfig: priority (int, at least 1), threshold in [0,1],
example utterances. -/
structure AgentRoutingConfig where
  priority : ℤ
  threshold : ℚ
  examples : List Str
deriving DecidableEq, Repr

/-- AgentConfig: one configured agent. Handles are normalized to lowercase
by the loader validator. -/
structure AgentConfig where
  id : Str
  name : Str
  handles : List Str
  url : Str
  protocol : AgentProtocol
  routing : Option AgentRoutingConfig
  description : Str
deriving DecidableEq, Repr

/-- SessionConfig of the catalog. -/
structure SessionConfig where
  sticky_enabled : Bool
  timeout_minutes : ℤ
  topic_drift_threshold : ℚ
deriving DecidableEq, Repr

/-- AgentsConfig: the loaded catalog. default_agent holds the id of the
default agent. -/
structure AgentsConfig where
  session : SessionConfig
  default_agent : Str
  agents : List AgentConfig
deriving DecidableEq, Repr

/-- AgentsConfig.get_agent_by_id: first agent with the given id, in catalog
order. -/
def get_agent_by_id (cfg : AgentsConfig) (agent_id : Str) : Option AgentConfig :=
  cfg.agents.find? (fun a => a.id == agent_id)

/-- AgentsConfig.get_agent_by_handle: lowercase the probe, then return the
first agent whose handle list contains it. -/
def get_agent_by_handle (cfg : AgentsConfig) (handle : Str) : Option AgentConfig :=
  let handle_lower := lower_str handle
  cfg.agents.find? (fun a => a.handles.contains handle_lower)

/-- AgentsConfig.get_default_agent; the source raises when the id does not
resolve, modeled by none. -/
def get_default_agent (cfg : AgentsConfig) : Option AgentConfig :=
  get_agent_by_id cfg cfg.default_agent

/-- AgentsConfig.is_default_agent. -/
def is_default_agent (cfg : AgentsConfig) (a : AgentConfig) : Bool :=
  a.id == cfg.default_agent

/-! ## AG-UI events (router/agui/models.py)

Only the fields the verified properties depend on are carried; the
remaining wire fields (thread_id and run_id correlators, raw passthrough
payloads) are opaque to every claim. -/

/-- AG-UI event, as produced by the translator, the proxy and the endpoint. -/
inductive AGUIEvent
  | run_started (display_name : Option Str)
  | run_finished
  | run_error (message : Str)
  | text_message_start (message_id : Str)
  | text_message_content (message_id : Str) (delta : Str)
  | text_message_end (message_id : Str)
  | passthrough
deriving DecidableEq, Repr

/-- inject_display_name from router/agui/models.py: attach the display name
to RUN_STARTED events, pass every other event through unchanged. A none
display name leaves even RUN_STARTED untouched. -/
def inject_display_name (e : AGUIEvent) (display_name : Option Str) : AGUIEvent :=
  match display_name with
  | none => e
  | some d =>
    match e with
    | .run_started _ => .run_started (some d)
    | _ => e

/-! ## A2A response frames (a2a.types, as consumed by the translator) -/

/-- A part of an A2A message: a TextPart or any other part kind. -/
inductive A2APart
  | text (t : Str)
  | other
deriving DecidableEq, Repr

/-- Role of an A2A message. -/
inductive A2ARole
  | user
  | agent
deriving DecidableEq, Repr

/-- An A2A message: role plus parts. -/
structure A2AMessage where
  role : A2ARole
  parts : List A2APart
deriving DecidableEq, Repr

/-- One streaming A2A response, already unwrapped to the success result
variant when possible; error_response stands for any non-success wrapper. -/
inductive A2AFrame
  | task (history : List A2AMessage)
  | status_update (message : Option A2AMessage)
  | artifact_update (artifact : Option (List A2APart))
  | error_response
deriving DecidableEq, Repr

/-! ## router/a2a/translator.py -/

/-- First TextPart text within a part list. -/
def first_text_part : List A2APart → Option Str
  | [] => none
  | .text t :: _ => some t
  | .other :: rest => first_text_part rest

/-- A2ATranslator._extract_task_text: the first TextPart of the agent-role
history messages, scanning messages in order. -/
def extract_task_text : List A2AMessage → Option Str
  | [] => none
  | m :: rest =>
    if m.role = A2ARole.agent then
      match first_text_part m.parts with
      | some t => some t
      | none => extract_task_text rest
    else extract_task_text rest

/-- A2ATranslator._extract_status_text. -/
def extract_status_text (message : Option A2AMessage) : Option Str :=
  match message with
  | some m => first_text_part m.parts
  | none => none

/-- A2ATranslator._extract_artifact_text. -/
def extract_artifact_text (artifact : Option (List A2APart)) : Option Str :=
  match artifact with
  | some parts => first_text_part parts
  | none => none

/-- Length of the common leading-character run of two texts, the zip loop of
_is_duplicate_content. -/
def common_prefix_len : Str → Str → ℕ
  | a :: as_, b :: bs => if a = b then common_prefix_len as_ bs + 1 else 0
  | _, _ => 0

/-- A2ATranslator._is_duplicate_content. Python float arithmetic on the
length ratio and the 0.8 factor is modeled with exact rationals. -/
def is_duplicate_content (text accumulated : Str) : Bool :=
  if accumulated.isEmpty then false
  else if text = accumulated then true
  else if contains_sub accumulated text then true
  else if text.isPrefixOf accumulated then true
  else if accumulated.isPrefixOf text then false
  else if collapse_ws text = collapse_ws accumulated then true
  else if accumulated.length > 50 then
    let ratio : ℚ := (text.length : ℚ) / (accumulated.length : ℚ)
    if (0.9 : ℚ) ≤ ratio ∧ ratio ≤ (1.1 : ℚ) then
      if (common_prefix_len text accumulated : ℚ) > (accumulated.length : ℚ) * (0.8 : ℚ)
      then true
      else false
    else false
  else false

/-- The duplicate-suppression cascade exactly as worded in claim C3:
not duplicate on empty accumulated; duplicate on equality; duplicate when
the text is a substring of accumulated; not duplicate when accumulated is a
proper prefix of the text; duplicate on whitespace-normalized equality;
duplicate under the long-text length-ratio and leading-overlap heuristic;
otherwise not duplicate. -/
def claim_duplicate (text accumulated : Str) : Bool :=
  if accumulated.isEmpty then false
  else if text = accumulated then true
  else if contains_sub accumulated text then true
  else if accumulated.isPrefixOf text && text ≠ accumulated then false
  else if collapse_ws text = collapse_ws accumulated then true
  else if accumulated.length > 50
      ∧ (0.9 : ℚ) ≤ (text.length : ℚ) / (accumulated.length : ℚ)
      ∧ (text.length : ℚ) / (accumulated.length : ℚ) ≤ (1.1 : ℚ)
      ∧ (common_prefix_len text accumulated : ℚ) > (accumulated.length : ℚ) * (0.8 : ℚ)
  then true
  else false

/-- A2ATranslator._emit_text_events: optional TEXT_MESSAGE_START, then the
delta-versus-cumulative decision for the content event. Each tuple carries
the event with the message_started and accumulated_text values current at
its yield point. -/
def emit_text_events (text message_id : Str) (message_started : Bool)
    (accumulated_text : Str) : List (AGUIEvent × Bool × Str) :=
  let start_part :=
    if message_started then []
    else [(AGUIEvent.text_message_start message_id, true, accumulated_text)]
  let step :=
    if accumulated_text.isPrefixOf text then
      (text.drop accumulated_text.length, text)
    else (text, accumulated_text ++ text)
  let content_part :=
    if step.1.isEmpty then []
    else [(AGUIEvent.text_message_content message_id step.1, true, step.2)]
  start_part ++ content_part

/-- A2ATranslator._translate_response: translate one frame given the current
message_started and accumulated_text state. The final fallback tuple uses
the locally mutated variables of the source, which only matters when a
truthy text produced no event tuples. -/
def translate_response (frame : A2AFrame) (message_id : Str)
    (message_started : Bool) (accumulated_text : Str) :
    List (Option AGUIEvent × Bool × Str) :=
  match frame with
  | .error_response => [(none, message_started, accumulated_text)]
  | .task history =>
    match extract_task_text history with
    | some text =>
      if text.isEmpty then [(none, message_started, accumulated_text)]
      else if is_duplicate_content text accumulated_text then
        [(none, message_started, accumulated_text)]
      else
        let r := (emit_text_events text message_id message_started accumulated_text).map
          (fun p => (some p.1, p.2.1, p.2.2))
        if r.isEmpty then [(none, true, accumulated_text ++ text)] else r
    | none => [(none, message_started, accumulated_text)]
  | .status_update message =>
    match extract_status_text message with
    | some text =>
      if text.isEmpty then [(none, message_started, accumulated_text)]
      else
        let r := (emit_text_events text message_id message_started accumulated_text).map
          (fun p => (some p.1, p.2.1, p.2.2))
        if r.isEmpty then [(none, true, accumulated_text ++ text)] else r
    | none => [(none, message_started, accumulated_text)]
  | .artifact_update artifact =>
    match extract_artifact_text artifact with
    | some text =>
      if text.isEmpty then [(none, message_started, accumulated_text)]
      else
        let r := (emit_text_events text message_id message_started accumulated_text).map
          (fun p => (some p.1, p.2.1, p.2.2))
        if r.isEmpty then [(none, true, accumulated_text ++ text)] else r
    | none => [(none, message_started, accumulated_text)]

/-- The consumer loop of _translate_stream over the tuples of one frame:
yield the non-none events and keep the state of the last tuple. -/
def consume_tuples (rs : List (Option AGUIEvent × Bool × Str))
    (st : Bool × Str) : (Bool × Str) × List AGUIEvent :=
  rs.foldl
    (fun acc p => ((p.2.1, p.2.2), acc.2 ++ p.1.toList))
    (st, [])

/-- The frame loop of _translate_stream followed by the closing
TEXT_MESSAGE_END (when a message was started) and RUN_FINISHED. -/
def translate_frames (message_id : Str) :
    List A2AFrame → Bool → Str → List AGUIEvent
  | [], message_started, _ =>
    (if message_started then [AGUIEvent.text_message_end message_id] else [])
      ++ [AGUIEvent.run_finished]
  | f :: rest, message_started, accumulated_text =>
    let step := consume_tuples (translate_response f message_id message_started
      accumulated_text) (message_started, accumulated_text)
    step.2 ++ translate_frames message_id rest step.1.1 step.1.2

/-- A2ATranslator._translate_stream on a fully materialized frame list:
RUN_STARTED (with the display name injected when truthy), the translated
frames, the closing events. The exception branch is not modeled: frame
consumption is total here. -/
def translate_stream (message_id : Str) (display_name : Option Str)
    (frames : List A2AFrame) : List AGUIEvent :=
  let started :=
    match display_name with
    | some d => if d.isEmpty then AGUIEvent.run_started none
                else AGUIEvent.run_started (some d)
    | none => AGUIEvent.run_started none
  started :: translate_frames message_id frames false []

/-- The TEXT_MESSAGE_CONTENT deltas of an event list, in order. -/
def content_deltas (events : List AGUIEvent) : List Str :=
  events.filterMap (fun e =>
    match e with
    | .text_message_content _ d => some d
    | _ => none)

/-! ## router/agents/proxy.py -/

/-- AgentProxyError, as raised by AgentProxy.forward_request. -/
structure AgentProxyError where
  message : Str
  agent_id : Str
  agent_name : Str
  attempts : ℕ
  is_retryable : Bool
deriving DecidableEq, Repr

/-- Observable behavior of one protocol-level forwarding attempt
(_forward_with_protocol): the events it yields, followed either by normal
completion (none) or by an AGUIClientError / A2AClientError (some e). The
behavior function gives the outcome of attempt k, were it performed. -/
structure AttemptSpec where
  events : List AGUIEvent
  failure : Option PyError
deriving DecidableEq, Repr

/-- One observable step of forward_request: the backoff sleep performed at
the top of a retry iteration, the start of a protocol-level attempt, or an
event yielded downstream during an attempt (tagged with the 0-indexed
attempt number). -/
inductive ProxyStep
  | sleep (attempt : ℕ) (delay_ms : ℤ)
  | start (attempt : ℕ)
  | yield_ (attempt : ℕ) (e : AGUIEvent)
deriving DecidableEq, Repr

/-- Result of running forward_request to completion: the full step trace,
the final value of the attempts counter, and the raised AgentProxyError
together with the RUN_ERROR event yielded just before raising (none on
success). -/
structure ProxyOutcome where
  steps : List ProxyStep
  attempts : ℕ
  failure : Option (AGUIEvent × AgentProxyError)
deriving DecidableEq, Repr

/-- The terminal error message of forward_request:
Agent {name} failed after {attempts} attempt(s): {last_error}. -/
def proxy_fail_msg (agent_name : Str) (attempts : ℕ) (last_error : Option PyError) : Str :=
  ("Agent ".data) ++ agent_name ++ (" failed after ".data) ++ nat_str attempts
    ++ (" attempt(s): ".data)
    ++ (match last_error with
        | some e => e.text
        | none => "None".data)

/-- The exhausted / non-retryable epilogue of forward_request: yield one
RUN_ERROR event, then raise AgentProxyError. -/
def proxy_finish (agent : AgentConfig) (steps : List ProxyStep) (attempts : ℕ)
    (last_error : Option PyError) : ProxyOutcome :=
  let msg := proxy_fail_msg agent.name attempts last_error
  { steps := steps
    attempts := attempts
    failure := some (AGUIEvent.run_error msg,
      { message := msg
        agent_id := agent.id
        agent_name := agent.name
        attempts := attempts
        is_retryable :=
          match last_error with
          | some e => is_retryable_error e
          | none => false }) }

/-- The retry loop of AgentProxy.forward_request. k is the 0-indexed attempt
about to run; remaining is max_attempts - k, which makes the recursion
structural. Faithful to the source: an AGUIClientError or A2AClientError
raised by the attempt is caught and classified regardless of whether the
attempt already yielded events. -/
def forward_loop (cfg : RetryConfig) (agent : AgentConfig)
    (behavior : ℕ → AttemptSpec) :
    (k : ℕ) → (remaining : ℕ) → Option PyError → List ProxyStep → ProxyOutcome
  | k, 0, last_error, steps => proxy_finish agent steps k last_error
  | k, remaining + 1, _, steps =>
    let pre := (if k = 0 then [] else [ProxyStep.sleep k (get_delay_ms cfg k)])
      ++ [ProxyStep.start k]
    let a := behavior k
    let steps1 := steps ++ pre ++ a.events.map (ProxyStep.yield_ k)
    match a.failure with
    | none => { steps := steps1, attempts := k + 1, failure := none }
    | some e =>
      if is_retryable_error e then
        if remaining = 0 then proxy_finish agent steps1 (k + 1) (some e)
        else forward_loop cfg agent behavior (k + 1) remaining (some e) steps1
      else proxy_finish agent steps1 (k + 1) (some e)

/-- AgentProxy.forward_request as a trace-producing function of the retry
configuration and the per-attempt behavior. -/
def forward_request (cfg : RetryConfig) (agent : AgentConfig)
    (behavior : ℕ → AttemptSpec) : ProxyOutcome :=
  forward_loop cfg agent behavior 0 cfg.max_attempts none []

/-- The events a consumer of forward_request receives: every yielded event
in trace order, followed by the final RUN_ERROR when the proxy fails. -/
def proxy_events (o : ProxyOutcome) : List AGUIEvent :=
  (o.steps.filterMap (fun s =>
    match s with
    | .yield_ _ e => some e
    | _ => none))
    ++ (match o.failure with
        | some (e, _) => [e]
        | none => [])

/-! ## router/agui/endpoint.py: request stripping (claim C9) -/

/-- A content item of a message whose content is a part list; items without
a text attribute pass through _strip_mentions_from_request unchanged. -/
inductive ContentItem
  | text_item (text : Str)
  | other_item
deriving DecidableEq, Repr

/-- Message content: a plain string or a list of parts. -/
inductive MsgContent
  | str (s : Str)
  | parts (items : List ContentItem)
deriving DecidableEq, Repr

/-- One chat message of the ingress request. -/
structure ChatMessage where
  msg_id : Str
  role : Str
  content : MsgContent
deriving DecidableEq, Repr

/-- The ingress ChatRequest fields relevant to routing and stripping; tools,
context and state are carried through model_copy untouched and are omitted. -/
structure ChatRequest where
  thread_id : Str
  messages : List ChatMessage
deriving DecidableEq, Repr

/-- The literal role string of user messages. -/
def user_role : Str := "user".data

/-- Stripping of a single content value, as performed for user messages by
_strip_mentions_from_request. -/
def strip_content : MsgContent → MsgContent
  | .str s => .str (strip_mentions s)
  | .parts items => .parts (items.map (fun it =>
      match it with
      | .text_item t => .text_item (strip_mentions t)
      | .other_item => .other_item))

/-- _strip_mentions_from_request: a copy of the request in which every
user-role message has mentions stripped; other roles are appended as-is. -/
def strip_mentions_from_request (request : ChatRequest) : ChatRequest :=
  { request with
    messages := request.messages.map (fun m =>
      if m.role = user_role then { m with content := strip_content m.content }
      else m) }

/-! ## router/agui/endpoint.py: fallback path (claim C4) -/

/-- The failure context built in the AgentProxyError handler of the chat
endpoint: Agent {name} unavailable after {attempts} attempt(s), with a
trailing space. The name falls back to the routed agent name when the
exception carries an empty one (Python or on strings). -/
def failure_context_of (e : AgentProxyError) (routed : AgentConfig) : Str :=
  ("Agent '".data)
    ++ (if e.agent_name.isEmpty then routed.name else e.agent_name)
    ++ ("' unavailable after ".data) ++ nat_str e.attempts
    ++ (" attempt(s). ".data)

/-- The fallback notice text of _yield_fallback_context, including the two
trailing newline characters of the source f-string. -/
def fallback_message (failure_context : Str) : Str :=
  ("[Notice: ".data) ++ failure_context
    ++ ("Routing to general assistant.]\n\n".data)

/-- _yield_fallback_context: the three synthetic events carrying the notice. -/
def yield_fallback_context (failure_context message_id : Str) : List AGUIEvent :=
  [ AGUIEvent.text_message_start message_id,
    AGUIEvent.text_message_content message_id (fallback_message failure_context),
    AGUIEvent.text_message_end message_id ]

/-- Result of the chat endpoint event generator: the outbound event stream
and the proxy forwarding calls it performed, in order. -/
structure GeneratorRun where
  events : List AGUIEvent
  calls : List (AgentConfig × ChatRequest)
deriving DecidableEq, Repr

/-- The event_generator of the chat endpoint, driven by an abstract proxy
run function giving, per agent and request, the events yielded by
forward_request and the AgentProxyError it raised (none on success). Only
the AgentProxyError paths are modeled; the catch-all handler for other
exception types is out of scope of the claims. -/
def event_generator (cfg : AgentsConfig) (agent default_agent : AgentConfig)
    (forwarding_request : ChatRequest) (notice_message_id : Str)
    (proxy_run : AgentConfig → ChatRequest → List AGUIEvent × Option AgentProxyError) :
    GeneratorRun :=
  let primary := proxy_run agent forwarding_request
  match primary.2 with
  | none => { events := primary.1, calls := [(agent, forwarding_request)] }
  | some e =>
    let failure_context := failure_context_of e agent
    if is_default_agent cfg agent then
      { events := primary.1
          ++ [AGUIEvent.run_error (("Default agent unavailable: ".data) ++ failure_context)]
        calls := [(agent, forwarding_request)] }
    else
      let fb := proxy_run default_agent forwarding_request
      let fb_events :=
        match fb.2 with
        | none => fb.1
        | some fe => fb.1 ++ [AGUIEvent.run_error
            (("All agents unavailable. Primary: ".data) ++ failure_context
              ++ ("Fallback: ".data) ++ fe.message)]
      { events := primary.1
          ++ yield_fallback_context failure_context notice_message_id
          ++ fb_events
        calls := [(agent, forwarding_request), (default_agent, forwarding_request)] }

/-! ## router/session/state.py and router/session/store.py -/

/-- SessionState: timestamps are rationals measured in minutes. -/
structure SessionState where
  thread_id : Str
  agent_id : Str
  agent_handle : Str
  created_at : ℚ
  last_activity : ℚ
deriving DecidableEq, Repr

/-- SessionState.is_expired: strictly later than last_activity plus the
timeout (datetime.now() > expiry_time). -/
def is_expired (now : ℚ) (s : SessionState) (timeout_minutes : ℤ) : Bool :=
  now > s.last_activity + (timeout_minutes : ℚ)

/-- The session store: the dictionary keyed by thread id, plus the
configured timeout. -/
structure SessionStore where
  sessions : Str → Option SessionState
  timeout_minutes : ℤ

/-- SessionStore.get at time now: none for a missing entry; an expired entry
is deleted inline and reported as none; otherwise the live session. Returns
the result together with the store after the call. -/
def store_get (now : ℚ) (st : SessionStore) (thread_id : Str) :
    Option SessionState × SessionStore :=
  match st.sessions thread_id with
  | none => (none, st)
  | some s =>
    if is_expired now s st.timeout_minutes then
      (none, { st with sessions := fun t => if t = thread_id then none else st.sessions t })
    else (some s, st)

/-- SessionStore.set at time now: create or replace with a fresh
SessionState whose created_at and last_activity are now. -/
def store_set (now : ℚ) (st : SessionStore) (thread_id agent_id agent_handle : Str) :
    SessionStore :=
  { st with sessions := fun t =>
      if t = thread_id then
        some { thread_id := thread_id, agent_id := agent_id,
               agent_handle := agent_handle, created_at := now, last_activity := now }
      else st.sessions t }

/-- SessionStore.touch at time now: false for missing entries; an expired
entry is deleted and reported false; otherwise last_activity is bumped. -/
def store_touch (now : ℚ) (st : SessionStore) (thread_id : Str) : Bool × SessionStore :=
  match st.sessions thread_id with
  | none => (false, st)
  | some s =>
    if is_expired now s st.timeout_minutes then
      (false, { st with sessions := fun t => if t = thread_id then none else st.sessions t })
    else
      (true, { st with sessions := fun t =>
        if t = thread_id then some { s with last_activity := now } else st.sessions t })

/-- SessionStore.delete. -/
def store_delete (st : SessionStore) (thread_id : Str) : Bool × SessionStore :=
  match st.sessions thread_id with
  | none => (false, st)
  | some _ =>
    (true, { st with sessions := fun t => if t = thread_id then none else st.sessions t })

/-- A store operation invoked at some time, for history-level statements. -/
inductive StoreOp
  | op_set (now : ℚ) (thread_id agent_id agent_handle : Str)
  | op_delete (thread_id : Str)
  | op_get (now : ℚ) (thread_id : Str)
  | op_touch (now : ℚ) (thread_id : Str)
deriving DecidableEq, Repr

/-- Apply one operation, discarding the returned value. -/
def apply_op (st : SessionStore) : StoreOp → SessionStore
  | .op_set now t aid h => store_set now st t aid h
  | .op_delete t => (store_delete st t).2
  | .op_get now t => (store_get now st t).2
  | .op_touch now t => (store_touch now st t).2

/-- Run a history of operations left to right. -/
def run_ops (st : SessionStore) (ops : List StoreOp) : SessionStore :=
  ops.foldl apply_op st

/-- The store as freshly constructed: no sessions. -/
def empty_store (timeout_minutes : ℤ) : SessionStore :=
  { sessions := fun _ => none, timeout_minutes := timeout_minutes }

/-- Whether an operation is a set for the given thread id. -/
def sets_thread (t : Str) : StoreOp → Bool
  | .op_set _ t2 _ _ => t2 = t
  | _ => false

/-! ## router/routing/semantic.py -/

/-- The maximum message length guard of the semantic router. -/
def MAX_MESSAGE_LENGTH : ℕ := 10000

/-- Message validity as checked by match and compute_similarity: non-empty,
not whitespace-only, at most MAX_MESSAGE_LENGTH characters. -/
def msg_valid (msg : Str) : Bool :=
  msg.any (fun c => ¬ is_py_space c) && msg.length ≤ MAX_MESSAGE_LENGTH

/-- Errors raised by the semantic router: RuntimeError when not initialized
(not modeled separately: an index value is always present here) and
ValueError on invalid input. -/
inductive RouterErr
  | invalid_message
  | default_agent_missing
deriving DecidableEq, Repr

/-- A semantic routing match result. -/
structure RouteMatch where
  agent : AgentConfig
  score : ℚ
  example_text : Str
deriving DecidableEq, Repr

/-- The router state built by build_index: the catalog agents, the embedding
matrix, and the parallel (agent_index, example) list. -/
structure SemanticIndex where
  agents : List AgentConfig
  embeddings : List (List ℚ)
  example_to_agent : List (ℕ × Str)
deriving Repr

/-- Dot product of two embedding vectors; with normalized embeddings this is
the cosine similarity of the code. -/
def dotQ (a b : List ℚ) : ℚ := (List.zipWith (· * ·) a b).sum

/-- The example collection loop of build_index: agents without a routing
section or with an empty example list contribute nothing; the index
parameter mirrors enumerate. -/
def build_e2a : ℕ → List AgentConfig → List (ℕ × Str)
  | _, [] => []
  | i, a :: rest =>
    (match a.routing with
     | some r => r.examples.map (fun ex => (i, ex))
     | none => []) ++ build_e2a (i + 1) rest

/-- SemanticRouter.build_index for a deterministic embedding function. -/
def build_index (encode : Str → List ℚ) (cfg : AgentsConfig) : SemanticIndex :=
  let e2a := build_e2a 0 cfg.agents
  { agents := cfg.agents
    embeddings := e2a.map (fun p => encode p.2)
    example_to_agent := e2a }

/-- The in-place dictionary write m[k] = v on an insertion-ordered
association list: update in place when the key exists, append otherwise. -/
def dict_update : List (ℕ × ℚ × Str) → ℕ → ℚ × Str → List (ℕ × ℚ × Str)
  | [], k, v => [(k, v)]
  | (k2, v2) :: rest, k, v =>
    if k2 = k then (k2, v) :: rest else (k2, v2) :: dict_update rest k v

/-- Lookup in the association list, modeling dict.get. -/
def dict_get : List (ℕ × ℚ × Str) → ℕ → Option (ℚ × Str)
  | [], _ => none
  | (k2, v2) :: rest, k => if k2 = k then some v2 else dict_get rest k

/-- One iteration of the best-score loop of match: keep the strictly larger
score per agent index, first writer wins ties. -/
def consider_best (m : List (ℕ × ℚ × Str)) (k : ℕ) (v : ℚ × Str) :
    List (ℕ × ℚ × Str) :=
  match dict_get m k with
  | none => dict_update m k v
  | some cur => if v.1 > cur.1 then dict_update m k v else m

/-- The agent_best_scores dictionary of match, built over the zipped
(similarity, (agent index, example)) rows. -/
def best_scores_fold (pairs : List (ℚ × ℕ × Str)) : List (ℕ × ℚ × Str) :=
  pairs.foldl (fun m p => consider_best m p.2.1 (p.1, p.2.2)) []

/-- The priority key used by the sort of match; agents without routing
default to priority 1. -/
def match_priority (m : RouteMatch) : ℤ :=
  match m.agent.routing with
  | some r => r.priority
  | none => 1

/-- The sort key order of match: ascending in (-score, priority), that is,
descending score with ties broken by ascending priority. -/
def sort_le (m1 m2 : RouteMatch) : Bool :=
  (m2.score < m1.score) || (m1.score = m2.score && match_priority m1 ≤ match_priority m2)

/-- SemanticRouter.match. Python list.sort is stable and a stable sort is
uniquely determined by the key order, so it is modeled by insertion sort
over the same key order. -/
def match_message (encode : Str → List ℚ) (idx : SemanticIndex) (msg : Str) :
    Except RouterErr (List RouteMatch) :=
  if ¬ msg_valid msg then .error .invalid_message
  else if idx.embeddings.isEmpty then .ok []
  else
    let q := encode msg
    let sims := idx.embeddings.map (fun e => dotQ e q)
    let best := best_scores_fold (sims.zip idx.example_to_agent)
    let match_list := best.filterMap (fun p =>
      match idx.agents.get? p.1 with
      | none => none
      | some a =>
        match a.routing with
        | none => none
        | some r => if p.2.1 ≥ r.threshold then some ⟨a, p.2.1, p.2.2⟩ else none)
    .ok (List.insertionSort (fun a b => sort_le a b = true) match_list)

/-- SemanticRouter.match_best: the head of the match list. -/
def match_best (encode : Str → List ℚ) (idx : SemanticIndex) (msg : Str) :
    Except RouterErr (Option RouteMatch) :=
  (match_message encode idx msg).map List.head?

/-- The cached branch of compute_similarity: locate the agent by id in the
indexed agent list, select the embedding rows whose example_to_agent tag is
that position, and take the maximal dot product; none when the agent is not
in the list or has no rows. -/
def cached_similarity (encode : Str → List ℚ) (idx : SemanticIndex)
    (agent : AgentConfig) (msg : Str) : Option ℚ :=
  let q := encode msg
  match idx.agents.findIdx? (fun a => a.id == agent.id) with
  | none => none
  | some aidx =>
    let rows := (idx.example_to_agent.zip idx.embeddings).filterMap
      (fun p => if p.1.1 = aidx then some p.2 else none)
    if rows.isEmpty then none
    else some (list_max (rows.map (fun r => dotQ r q)))

/-- The on-demand branch of compute_similarity: re-embed the agent examples
and take the maximal dot product. -/
def on_demand_similarity (encode : Str → List ℚ) (agent : AgentConfig) (msg : Str) : ℚ :=
  let q := encode msg
  match agent.routing with
  | some r => list_max (r.examples.map (fun ex => dotQ (encode ex) q))
  | none => 0

/-- SemanticRouter.compute_similarity: input validation, the zero fast path
for agents without examples, then the cached branch with the on-demand
fallback. -/
def compute_similarity (encode : Str → List ℚ) (idx : SemanticIndex)
    (agent : AgentConfig) (msg : Str) : Except RouterErr ℚ :=
  if ¬ msg_valid msg then .error .invalid_message
  else
    match agent.routing with
    | none => .ok 0
    | some r =>
      if r.examples.isEmpty then .ok 0
      else
        match cached_similarity encode idx agent msg with
        | some v => .ok v
        | none => .ok (on_demand_similarity encode agent msg)

/-! ## router/routing/drift.py -/

/-- DriftResult. -/
structure DriftResult where
  drifted : Bool
  similarity_score : ℚ
  threshold : ℚ
deriving DecidableEq, Repr

/-- detect_topic_drift: drifted iff similarity strictly below the threshold;
a ValueError or RuntimeError from the router is absorbed into a forced
drift with score 0. -/
def detect_topic_drift (encode : Str → List ℚ) (idx : SemanticIndex)
    (msg : Str) (agent : AgentConfig) (drift_threshold : ℚ) : DriftResult :=
  match compute_similarity encode idx agent msg with
  | .ok similarity =>
    { drifted := similarity < drift_threshold
      similarity_score := similarity
      threshold := drift_threshold }
  | .error _ =>
    { drifted := true, similarity_score := 0, threshold := drift_threshold }

/-! ## router/agui/endpoint.py: _route_with_sessions (claim C1) -/

/-- The routing_method strings of _route_with_sessions. -/
inductive RoutingMethod
  | mention
  | sticky
  | semantic
  | llm_fallback
  | default_agent
deriving DecidableEq, Repr

/-- The routing decision together with the session store as left after the
call: chosen agent, method, confidence score, topic-drift flag. -/
structure RouteOutcome where
  agent : AgentConfig
  method : RoutingMethod
  score : Option ℚ
  topic_drift : Bool
  store : Option SessionStore

/-- Step 4 of _route_with_sessions: when a session store is present and
sticky sessions are enabled, write or overwrite the session for the thread
with the chosen agent and its primary handle (handles are validated
non-empty by the loader; headD supplies the first element). -/
def finish_routing (cfg : AgentsConfig) (now : ℚ) (thread_id : Str)
    (a : AgentConfig) (method : RoutingMethod) (score : Option ℚ)
    (topic_drift : Bool) (store : Option SessionStore) : RouteOutcome :=
  let store2 :=
    match store with
    | some st =>
      some (if cfg.session.sticky_enabled then
              store_set now st thread_id a.id (a.handles.headD [])
            else st)
    | none => none
  { agent := a, method := method, score := score,
    topic_drift := topic_drift, store := store2 }

/-- Steps 3 to 5 of _route_with_sessions: semantic match, then the LLM
fallback classification (whose network call is the opaque llm parameter;
an LLMFallbackError is logged and absorbed), then the default agent. The
get_default_agent lookup happens before the LLM call, as in the source. -/
def route_step3 (encode : Str → List ℚ) (idx : SemanticIndex) (cfg : AgentsConfig)
    (llm : Except Unit (Option AgentConfig)) (now : ℚ) (msg thread_id : Str)
    (store : Option SessionStore) (topic_drift : Bool) :
    Except RouterErr RouteOutcome :=
  match match_best encode idx msg with
  | .error e => .error e
  | .ok (some m) =>
    .ok (finish_routing cfg now thread_id m.agent .semantic (some m.score)
      topic_drift store)
  | .ok none =>
    match get_default_agent cfg with
    | none => .error .default_agent_missing
    | some dflt =>
      let llm_agent :=
        if cfg.agents.isEmpty then none
        else
          match llm with
          | .ok r => r
          | .error _ => none
      match llm_agent with
      | some a =>
        .ok (finish_routing cfg now thread_id a .llm_fallback none topic_drift store)
      | none =>
        .ok (finish_routing cfg now thread_id dflt .default_agent none topic_drift store)

/-- _route_with_sessions: the deterministic routing cascade. An unresolvable
mention falls through; a sticky session whose agent no longer exists falls
through without deletion; a drifted session is deleted before re-routing;
a surviving session is touched. -/
def route_with_sessions (encode : Str → List ℚ) (idx : SemanticIndex)
    (cfg : AgentsConfig) (llm : Except Unit (Option AgentConfig)) (now : ℚ)
    (msg thread_id : Str) (store0 : Option SessionStore) :
    Except RouterErr RouteOutcome :=
  match (parse_mention msg).bind (fun h => get_agent_by_handle cfg h) with
  | some a => .ok (finish_routing cfg now thread_id a .mention none false store0)
  | none =>
    match store0 with
    | none => route_step3 encode idx cfg llm now msg thread_id none false
    | some st =>
      match store_get now st thread_id with
      | (none, st1) => route_step3 encode idx cfg llm now msg thread_id (some st1) false
      | (some sess, st1) =>
        match get_agent_by_id cfg sess.agent_id with
        | none => route_step3 encode idx cfg llm now msg thread_id (some st1) false
        | some sticky_agent =>
          let dr := detect_topic_drift encode idx msg sticky_agent
            cfg.session.topic_drift_threshold
          if dr.drifted then
            route_step3 encode idx cfg llm now msg thread_id
              (some (store_delete st1 thread_id).2) true
          else
            .ok (finish_routing cfg now thread_id sticky_agent .sticky
              (some dr.similarity_score) false (some (store_touch now st1 thread_id).2))

/-! Claim-level views of the cascade steps, written from the wording of
claim C1: the qualification of each step, independent of the engine. -/

/-- Step 1 qualification: a parsed mention whose handle resolves. -/
def mention_choice (cfg : AgentsConfig) (msg : Str) : Option AgentConfig :=
  (parse_mention msg).bind (fun h => get_agent_by_handle cfg h)

/-- Step 2 qualification: a live (non-expired) session whose agent still
exists in the catalog and whose drift check reports no drift; yields the
agent and the similarity score. -/
def sticky_choice (encode : Str → List ℚ) (idx : SemanticIndex)
    (cfg : AgentsConfig) (now : ℚ) (msg thread_id : Str)
    (store0 : Option SessionStore) : Option (AgentConfig × ℚ) :=
  match store0 with
  | none => none
  | some st =>
    match (store_get now st thread_id).1 with
    | none => none
    | some sess =>
      match get_agent_by_id cfg sess.agent_id with
      | none => none
      | some ag =>
        let dr := detect_topic_drift encode idx msg ag cfg.session.topic_drift_threshold
        if dr.drifted then none else some (ag, dr.similarity_score)

/-- Step 4 qualification: the LLM classification outcome, available only
with a non-empty agent list and absorbed to none on LLMFallbackError. -/
def llm_choice (cfg : AgentsConfig) (llm : Except Unit (Option AgentConfig)) :
    Option AgentConfig :=
  if cfg.agents.isEmpty then none
  else
    match llm with
    | .ok r => r
    | .error _ => none

/-- The conclusion of claim C1, as a predicate on the routing result: the
method and agent are given by the earliest qualifying step in the order
mention, sticky, semantic, llm_fallback, default; when sticky sessions are
enabled the session for the thread is written with the chosen agent and its
first handle at the current time; and a sticky decision leaves a session
whose last_activity is the current time (the touch). -/
def c1_conclusion (encode : Str → List ℚ) (idx : SemanticIndex)
    (cfg : AgentsConfig) (llm : Except Unit (Option AgentConfig)) (now : ℚ)
    (msg thread_id : Str) (store0 : Option SessionStore) (dflt : AgentConfig) : Prop :=
  ∃ r, route_with_sessions encode idx cfg llm now msg thread_id store0 = .ok r
    ∧ (match mention_choice cfg msg with
       | some a => r.method = .mention ∧ r.agent = a
       | none =>
         match sticky_choice encode idx cfg now msg thread_id store0 with
         | some (ag, sc) => r.method = .sticky ∧ r.agent = ag ∧ r.score = some sc
         | none =>
           match match_best encode idx msg with
           | .ok (some m) => r.method = .semantic ∧ r.agent = m.agent ∧ r.score = some m.score
           | .ok none =>
             match llm_choice cfg llm with
             | some a => r.method = .llm_fallback ∧ r.agent = a
             | none => r.method = .default_agent ∧ r.agent = dflt
           | .error _ => False)
    ∧ (∀ st, store0 = some st → cfg.session.sticky_enabled = true →
        ∃ st2, r.store = some st2
          ∧ st2.sessions thread_id = some
              { thread_id := thread_id, agent_id := r.agent.id,
                agent_handle := r.agent.handles.headD [],
                created_at := now, last_activity := now })
    ∧ (∀ st, store0 = some st → r.method = .sticky →
        ∃ st2 s2, r.store = some st2 ∧ st2.sessions thread_id = some s2
          ∧ s2.last_activity = now ∧ s2.agent_id = r.agent.id)

/-! ## Claim-level auxiliary definitions -/

/-- Whether a text still contains a mention-regex match: an @ sign directly
followed by a mention character. -/
def has_match : Str → Bool
  | a :: b :: rest => (a = '@' && is_mention_char b) || has_match (b :: rest)
  | _ => false

/-- Whitespace-collapsed shape: no leading or trailing whitespace, every
whitespace character is a single space, and no two adjacent whitespace
characters. -/
def ws_collapsed (s : Str) : Prop :=
  (∀ c ∈ s.head?, ¬ is_py_space c)
    ∧ (∀ c ∈ s.getLast?, ¬ is_py_space c)
    ∧ (∀ c ∈ s, is_py_space c → c = ' ')
    ∧ List.Chain' (fun a b => ¬ (is_py_space a = true ∧ is_py_space b = true)) s

/-- The trace block of one performed proxy attempt: the backoff sleep for
retries, the attempt start, the yielded events. -/
def attempt_block (cfg : RetryConfig) (behavior : ℕ → AttemptSpec) (k : ℕ) :
    List ProxyStep :=
  (if k = 0 then [] else [ProxyStep.sleep k (get_delay_ms cfg k)])
    ++ [ProxyStep.start k]
    ++ (behavior k).events.map (ProxyStep.yield_ k)

/-- First maximum of scored examples: the maximal score paired with the
earliest example attaining it, mirroring the strict-improvement update of
the best-score loop. -/
def first_max_pair : List (ℚ × Str) → Option (ℚ × Str)
  | [] => none
  | x :: xs => some (xs.foldl (fun b y => if y.1 > b.1 then y else b) x)

/-- The per-agent candidate of claim C7: the best per-example score of the
agent (with the earliest example attaining it), kept when it reaches the
threshold of that agent. -/
def agent_candidate (encode : Str → List ℚ) (msg : Str) (a : AgentConfig) :
    Option RouteMatch :=
  match a.routing with
  | none => none
  | some r =>
    match first_max_pair (r.examples.map (fun ex => (dotQ (encode ex) (encode msg), ex))) with
    | none => none
    | some (s, ex) => if s ≥ r.threshold then some ⟨a, s, ex⟩ else none

/-- The candidate list of claim C7, in catalog order. -/
def spec_candidates (encode : Str → List ℚ) (msg : Str)
    (agents : List AgentConfig) : List RouteMatch :=
  agents.filterMap (agent_candidate encode msg)

/-- The sortedness stated by claim C7: scores non-increasing, ties broken by
ascending priority. -/
def c7_sorted (l : List RouteMatch) : Prop :=
  List.Pairwise (fun m1 m2 => m2.score ≤ m1.score
    ∧ (m2.score = m1.score → match_priority m1 ≤ match_priority m2)) l

/-- The conclusion of the amended claim C7. -/
def c7_conclusion (encode : Str → List ℚ) (cfg : AgentsConfig) (msg : Str) : Prop :=
  ∃ l, match_message encode (build_index encode cfg) msg = .ok l
    ∧ l = List.insertionSort (fun a b => sort_le a b = true)
        (spec_candidates encode msg cfg.agents)
    ∧ c7_sorted l

/-- An A2A status update frame carrying one text delta. -/
def status_frame (d : Str) : A2AFrame :=
  .status_update (some { role := A2ARole.agent, parts := [A2APart.text d] })

/-- A final A2A Task frame whose agent history message carries one text. -/
def task_frame (s : Str) : A2AFrame :=
  .task [{ role := A2ARole.agent, parts := [A2APart.text s] }]

/-- The conclusion of the amended claim C3: the translated stream is
RUN_STARTED, one TEXT_MESSAGE_START, exactly the N content events carrying
the N status deltas (the final Task is suppressed as a duplicate),
TEXT_MESSAGE_END, RUN_FINISHED. -/
def c3_conclusion (message_id : Str) (display_name : Option Str) (ds : List Str) : Prop :=
  content_deltas (translate_stream message_id display_name
      (ds.map status_frame ++ [task_frame ds.flatten])) = ds
    ∧ translate_frames message_id (ds.map status_frame ++ [task_frame ds.flatten]) false []
      = AGUIEvent.text_message_start message_id
          :: ds.map (AGUIEvent.text_message_content message_id)
          ++ [AGUIEvent.text_message_end message_id, AGUIEvent.run_finished]

/-- The delta text stated verbatim by claim C4, without the trailing
newlines the source appends. -/
def c4_claim_delta (name : Str) (attempts : ℕ) : Str :=
  ("[Notice: Agent '".data) ++ name ++ ("' unavailable after ".data)
    ++ nat_str attempts ++ (" attempt(s). Routing to general assistant.]".data)

/-- The conclusion of the amended claim C4: on AgentProxyError from a
non-default agent the generator appends exactly the three synthetic notice
events (the content delta being the notice followed by two newlines) and
then forwards the same request to the default agent; on AgentProxyError
from the default agent it appends a single RUN_ERROR and performs no
further forwarding. -/
def c4_conclusion (cfg : AgentsConfig) (agent default_agent : AgentConfig)
    (req : ChatRequest) (mid : Str)
    (proxy_run : AgentConfig → ChatRequest → List AGUIEvent × Option AgentProxyError)
    (evs : List AGUIEvent) (e : AgentProxyError) : Prop :=
  (is_default_agent cfg agent = false →
    (proxy_run default_agent req).2 = none →
    event_generator cfg agent default_agent req mid proxy_run =
      { events := evs
          ++ [AGUIEvent.text_message_start mid,
              AGUIEvent.text_message_content mid
                ((c4_claim_delta (if e.agent_name.isEmpty then agent.name else e.agent_name)
                  e.attempts) ++ ('\n' :: ['\n'])),
              AGUIEvent.text_message_end mid]
          ++ (proxy_run default_agent req).1
        calls := [(agent, req), (default_agent, req)] })
  ∧ (is_default_agent cfg agent = true →
    event_generator cfg agent default_agent req mid proxy_run =
      { events := evs ++ [AGUIEvent.run_error
          (("Default agent unavailable: ".data) ++ failure_context_of e agent)]
        calls := [(agent, req)] })

/-- The conclusion of claim C5 about one proxy run: the delay formula, the
attempt bound, and the backoff sleep placed immediately before every retry
attempt and only there. -/
def c5_conclusion (cfg : RetryConfig) (agent : AgentConfig)
    (behavior : ℕ → AttemptSpec) : Prop :=
  (∀ k, get_delay_ms cfg k =
    if k = 0 then 0 else min (cfg.base_delay_ms * 2 ^ (k - 1)) cfg.max_delay_ms)
  ∧ (forward_request cfg agent behavior).attempts ≤ cfg.max_attempts
  ∧ (∀ k, ProxyStep.start k ∈ (forward_request cfg agent behavior).steps →
      k < cfg.max_attempts)
  ∧ (∀ k d, ProxyStep.sleep k d ∈ (forward_request cfg agent behavior).steps →
      k ≠ 0 ∧ d = min (cfg.base_delay_ms * 2 ^ (k - 1)) cfg.max_delay_ms
        ∧ ProxyStep.start k ∈ (forward_request cfg agent behavior).steps)
  ∧ (∀ k, ProxyStep.start k ∈ (forward_request cfg agent behavior).steps → k ≠ 0 →
      [ProxyStep.sleep k (get_delay_ms cfg k), ProxyStep.start k]
        <:+: (forward_request cfg agent behavior).steps)

/-! ## Concrete inputs used by witnesses and counterexamples -/

/-- A degenerate deterministic embedding: every text maps to the unit
one-dimensional vector, so every similarity evaluates to 1. -/
def encode_one : Str → List ℚ := fun _ => [1]

/-- A concrete A2A agent with one routing example and threshold 1. -/
def agent_alpha : AgentConfig :=
  { id := "alpha".data, name := "Alpha".data, handles := ["alpha".data],
    url := "http://alpha.internal".data, protocol := .a2a,
    routing := some { priority := 1, threshold := 1, examples := ["hi".data] },
    description := [] }

/-- A concrete AG-UI default agent without routing examples. -/
def agent_beta : AgentConfig :=
  { id := "beta".data, name := "Beta".data, handles := ["beta".data],
    url := "http://beta.internal".data, protocol := .ag_ui,
    routing := none, description := [] }

/-- A concrete catalog with agent_alpha and default agent_beta. -/
def cfg_alpha : AgentsConfig :=
  { session := { sticky_enabled := true, timeout_minutes := 30,
                 topic_drift_threshold := 1/2 },
    default_agent := "beta".data,
    agents := [agent_alpha, agent_beta] }

/-- A retryable connection error. -/
def conn_error : PyError := { text := "connection reset by peer".data, status_code := none }

/-- Behavior of an upstream that yields RUN_STARTED and then fails with a
retryable transport error on the first attempt, and succeeds on the second:
the mid-stream failure scenario of claim C2. -/
def mid_stream_behavior : ℕ → AttemptSpec := fun k =>
  if k = 0 then { events := [AGUIEvent.run_started none], failure := some conn_error }
  else { events := [AGUIEvent.run_started none, AGUIEvent.run_finished], failure := none }

/-- Behavior of an upstream that always fails before streaming. -/
def always_fail_behavior : ℕ → AttemptSpec := fun _ =>
  { events := [], failure := some conn_error }

/-- A concrete retry configuration with two attempts. -/
def cfg_retry2 : RetryConfig :=
  { max_attempts := 2, base_delay_ms := 500, max_delay_ms := 5000 }

/-- A concrete retry configuration with three attempts. -/
def cfg_retry3 : RetryConfig :=
  { max_attempts := 3, base_delay_ms := 10, max_delay_ms := 5000 }

/-- A concrete proxy error raised by agent_alpha after three attempts. -/
def proxy_error_alpha : AgentProxyError :=
  { message := proxy_fail_msg ("Alpha".data) 3 (some conn_error),
    agent_id := "alpha".data, agent_name := "Alpha".data,
    attempts := 3, is_retryable := true }

/-- A concrete proxy run map: agent_alpha fails with proxy_error_alpha after
yielding one RUN_ERROR event, every other agent streams a normal reply. -/
def proxy_run_fail_alpha :
    AgentConfig → ChatRequest → List AGUIEvent × Option AgentProxyError :=
  fun a _ =>
    if a.id = agent_alpha.id then
      ([AGUIEvent.run_error proxy_error_alpha.message], some proxy_error_alpha)
    else
      ([AGUIEvent.run_started (some a.name), AGUIEvent.run_finished], none)

/-- A minimal concrete chat request. -/
def req_simple : ChatRequest :=
  { thread_id := "t1".data,
    messages := [{ msg_id := "m1".data, role := user_role,
                   content := .str ("@alpha hello".data) }] }

/-- A concrete session store holding one session for thread t1 stuck to
agent_alpha, with both timestamps at 0. -/
def store_t1 : SessionStore :=
  { sessions := fun t =>
      if t = ("t1".data) then
        some { thread_id := "t1".data, agent_id := "alpha".data,
               agent_handle := "alpha".data, created_at := 0, last_activity := 0 }
      else none,
    timeout_minutes := 30 }

/-- The per-agent best-score list in first-appearance order, the value the
agent_best_scores dictionary of match holds after the loop: one entry per
indexed agent owning at least one example, carrying the first maximal
scored example. -/
def spec_best (encode : Str → List ℚ) (q : List ℚ) :
    ℕ → List AgentConfig → List (ℕ × ℚ × Str)
  | _, [] => []
  | n, a :: rest =>
    (match a.routing with
     | some r =>
       match first_max_pair (r.examples.map (fun ex => (dotQ (encode ex) q, ex))) with
       | some b => [(n, b)]
       | none => []
     | none => []) ++ spec_best encode q (n + 1) rest

/-- The filterMap body of match_message over a fixed agent list, named for
reuse: the row is dropped when its agent index is out of range, when the
agent has no routing section, or when the best score is below the agent
threshold. -/
def match_filter (full : List AgentConfig) (p : ℕ × ℚ × Str) : Option RouteMatch :=
  match full.get? p.1 with
  | none => none
  | some a =>
    match a.routing with
    | none => none
    | some r => if p.2.1 ≥ r.threshold then some ⟨a, p.2.1, p.2.2⟩ else none

/-! # Theorems -/

/-! ## Generic helper lemmas -/

theorem contains_sub_of_isPrefixOf {hay sub : Str} (h : sub.isPrefixOf hay = true) :
    contains_sub hay sub = true := by
  cases hay with
  | nil =>
    cases sub with
    | nil => rfl
    | cons b bs => simp [List.isPrefixOf] at h
  | cons c t => simp [contains_sub, h]

theorem has_match_append_left {xs ys : Str} (h : has_match xs = true) :
    has_match (xs ++ ys) = true := by
  induction xs with
  | nil => simp [has_match] at h
  | cons a rest ih =>
    cases rest with
    | nil => simp [has_match] at h
    | cons b r =>
      rw [has_match] at h
      rcases Bool.or_eq_true_iff.mp h with h1 | h1
      · show has_match (a :: b :: (r ++ ys)) = true
        rw [has_match, h1]
        simp
      · show has_match (a :: b :: (r ++ ys)) = true
        have h2 : has_match (b :: (r ++ ys)) = true := by
          have h3 := ih h1
          simpa using h3
        rw [has_match, h2]
        simp

theorem has_match_append_right {xs ys : Str} (h : has_match ys = true) :
    has_match (xs ++ ys) = true := by
  induction xs with
  | nil => simpa using h
  | cons a rest ih =>
    cases rest with
    | nil =>
      cases ys with
      | nil => simp [has_match] at h
      | cons b r =>
        show has_match (a :: b :: r) = true
        rw [has_match, h]
        simp
    | cons b r =>
      show has_match (a :: b :: (r ++ ys)) = true
      have h2 : has_match (b :: (r ++ ys)) = true := by
        have h3 := ih
        simpa using h3
      rw [has_match, h2]
      simp

theorem has_match_append_of {xs ys : Str} (h1 : has_match xs = false)
    (h2 : has_match ys = false)
    (hb : ∀ b ∈ ys.head?, is_mention_char b = false) :
    has_match (xs ++ ys) = false := by
  induction xs with
  | nil => simpa using h2
  | cons a rest ih =>
    cases rest with
    | nil =>
      cases ys with
      | nil => simpa using h1
      | cons b r =>
        have hbb := hb b (by simp)
        show has_match (a :: b :: r) = false
        rw [has_match, hbb, h2]
        simp
    | cons b r =>
      rw [has_match] at h1
      rcases Bool.or_eq_false_iff.mp h1 with ⟨hpair, htail⟩
      show has_match (a :: b :: (r ++ ys)) = false
      have h3 : has_match (b :: (r ++ ys)) = false := by
        have h4 := ih htail
        simpa using h4
      rw [has_match, h3, hpair]
      simp

theorem has_match_tail {c : Char} {rest : Str} (h : has_match (c :: rest) = false) :
    has_match rest = false := by
  cases rest with
  | nil => rfl
  | cons b r =>
    rw [has_match] at h
    exact (Bool.or_eq_false_iff.mp h).2

theorem has_match_cons_not_at {c : Char} {l : Str} (hc : ¬ c = '@')
    (h : has_match l = false) : has_match (c :: l) = false := by
  cases l with
  | nil => rfl
  | cons b r =>
    rw [has_match, h]
    simp [hc]

theorem strip_core_head (fuel : ℕ) : ∀ s : Str, s.length ≤ fuel →
    (∀ b ∈ s.head?, is_mention_char b = false) →
    ∀ b ∈ (strip_core fuel s).head?, is_mention_char b = false := by
  induction fuel with
  | zero =>
    intro s hlen _
    have : s = [] := List.eq_nil_of_length_eq_zero (Nat.le_zero.mp hlen)
    subst this
    intro b hb
    simp [strip_core] at hb
  | succ fuel ih =>
    intro s hlen hhead
    cases s with
    | nil =>
      intro b hb
      simp [strip_core] at hb
    | cons c rest =>
      by_cases hc : c = '@'
      · subst hc
        cases rest with
        | nil =>
          intro b hb
          simp [strip_core] at hb
          subst hb
          decide
        | cons d r =>
          by_cases hd : is_mention_char d = true
          · have heq : strip_core (fuel + 1) ('@' :: d :: r)
                = strip_core fuel ((d :: r).dropWhile is_mention_char) := by
              simp [strip_core, hd]
            rw [heq]
            apply ih
            · calc ((d :: r).dropWhile is_mention_char).length
                  ≤ (d :: r).length := (List.dropWhile_sublist _).length_le
                _ ≤ fuel := by
                    simp only [List.length_cons] at hlen ⊢
                    omega
            · intro b hb
              have h5 := List.head?_dropWhile_not is_mention_char (d :: r)
              rw [Option.mem_def] at hb
              rw [hb] at h5
              exact h5
          · have heq : strip_core (fuel + 1) ('@' :: d :: r)
                = '@' :: strip_core fuel (d :: r) := by
              simp [strip_core, hd]
            rw [heq]
            intro b hb
            simp at hb
            subst hb
            decide
      · have heq : strip_core (fuel + 1) (c :: rest) = c :: strip_core fuel rest := by
          cases rest with
          | nil => simp [strip_core, hc]
          | cons d r => simp [strip_core, hc]
        rw [heq]
        intro b hb
        simp at hb
        subst hb
        exact hhead c (by simp)

theorem strip_core_no_match (fuel : ℕ) : ∀ s : Str, s.length ≤ fuel →
    has_match (strip_core fuel s) = false := by
  induction fuel with
  | zero =>
    intro s hlen
    have : s = [] := List.eq_nil_of_length_eq_zero (Nat.le_zero.mp hlen)
    subst this
    rfl
  | succ fuel ih =>
    intro s hlen
    cases s with
    | nil => rfl
    | cons c rest =>
      by_cases hc : c = '@'
      · subst hc
        cases rest with
        | nil => rfl
        | cons d r =>
          by_cases hd : is_mention_char d = true
          · have heq : strip_core (fuel + 1) ('@' :: d :: r)
                = strip_core fuel ((d :: r).dropWhile is_mention_char) := by
              simp [strip_core, hd]
            rw [heq]
            apply ih
            calc ((d :: r).dropWhile is_mention_char).length
                ≤ (d :: r).length := (List.dropWhile_sublist _).length_le
              _ ≤ fuel := by
                  simp only [List.length_cons] at hlen ⊢
                  omega
          · have heq : strip_core (fuel + 1) ('@' :: d :: r)
                = '@' :: strip_core fuel (d :: r) := by
              simp [strip_core, hd]
            rw [heq]
            have hlen2 : (d :: r).length ≤ fuel := by
              simp only [List.length_cons] at hlen ⊢
              omega
            have htail := ih (d :: r) hlen2
            have hhd := strip_core_head fuel (d :: r) hlen2
              (by intro b hb; simp at hb; subst hb; simpa using hd)
            cases hout : strip_core fuel (d :: r) with
            | nil => rfl
            | cons x xs =>
              rw [has_match]
              rw [hout] at htail
              rw [htail]
              have hx : is_mention_char x = false := by
                apply hhd
                rw [hout]
                simp
              rw [hx]
              simp
      · have heq : strip_core (fuel + 1) (c :: rest) = c :: strip_core fuel rest := by
          cases rest with
          | nil => simp [strip_core, hc]
          | cons d r => simp [strip_core, hc]
        rw [heq]
        have hlen2 : rest.length ≤ fuel := by
          simp only [List.length_cons] at hlen
          omega
        exact has_match_cons_not_at hc (ih rest hlen2)

theorem parse_none_of_no_match : ∀ l : Str, has_match l = false →
    parse_mention l = none := by
  intro l
  induction l with
  | nil => intro _; rfl
  | cons c rest ih =>
    intro h
    cases rest with
    | nil => rfl
    | cons d r =>
      rw [has_match] at h
      rcases Bool.or_eq_false_iff.mp h with ⟨hpair, htail⟩
      rw [parse_mention, hpair]
      simp only [Bool.false_eq_true, if_false]
      exact ih htail

theorem split_aux_no_match : ∀ (l acc : Str), has_match (acc.reverse ++ l) = false →
    ∀ w ∈ split_ws_aux l acc, has_match w = false := by
  intro l
  induction l with
  | nil =>
    intro acc h w hw
    rw [split_ws_aux] at hw
    by_cases ha : acc.isEmpty
    · simp [ha] at hw
    · simp only [ha, Bool.false_eq_true, if_false, List.mem_singleton] at hw
      subst hw
      simpa using h
  | cons c rest ih =>
    intro acc h w hw
    rw [split_ws_aux] at hw
    have hmc : has_match (c :: rest) = false := by
      by_contra hcon
      have := @has_match_append_right acc.reverse _ (Bool.of_not_eq_false hcon)
      rw [h] at this
      exact Bool.false_ne_true this
    by_cases hsp : is_py_space c = true
    · simp only [hsp, if_true] at hw
      have hrest : has_match rest = false := has_match_tail hmc
      have hrec : ∀ w2 ∈ split_ws_aux rest [], has_match w2 = false := by
        apply ih
        simpa using hrest
      by_cases ha : acc.isEmpty
      · simp only [ha, if_true] at hw
        exact hrec w hw
      · simp only [ha, Bool.false_eq_true, if_false, List.mem_cons] at hw
        rcases hw with hw | hw
        · subst hw
          by_contra hcon
          have := @has_match_append_left _ (c :: rest) (Bool.of_not_eq_false hcon)
          rw [h] at this
          exact Bool.false_ne_true this
        · exact hrec w hw
    · simp only [hsp, if_false] at hw
      apply ih (c :: acc) _ w hw
      rw [List.reverse_cons, List.append_assoc]
      simpa using h

theorem join_space_no_match : ∀ ws : List Str, (∀ w ∈ ws, has_match w = false) →
    has_match (join_space ws) = false := by
  intro ws
  induction ws with
  | nil => intro _; rfl
  | cons w ws ih =>
    intro h
    cases ws with
    | nil => exact h w (by simp)
    | cons v rest =>
      rw [join_space]
      apply has_match_append_of (h w (by simp))
      · apply has_match_cons_not_at (by decide)
        apply ih
        intro w2 hw2
        exact h w2 (by simp [hw2])
      · intro b hb
        simp at hb
        subst hb
        decide

theorem parse_mention_strip_mentions (s : Str) :
    parse_mention (strip_mentions s) = none := by
  rw [strip_mentions]
  by_cases he : s.isEmpty
  · rw [if_pos he]
    have : s = [] := by simpa using he
    subst this
    rfl
  · rw [if_neg he]
    apply parse_none_of_no_match
    apply join_space_no_match
    intro w hw
    apply split_aux_no_match (strip_core s.length s) [] _ w hw
    simpa using strip_core_no_match s.length s (le_refl _)

theorem split_aux_words : ∀ (l acc : Str), (∀ c ∈ acc, is_py_space c = false) →
    ∀ w ∈ split_ws_aux l acc, w ≠ [] ∧ ∀ c ∈ w, is_py_space c = false := by
  intro l
  induction l with
  | nil =>
    intro acc hacc w hw
    rw [split_ws_aux] at hw
    by_cases ha : acc.isEmpty
    · simp [ha] at hw
    · simp only [ha, Bool.false_eq_true, if_false, List.mem_singleton] at hw
      subst hw
      constructor
      · simp only [ne_eq, List.reverse_eq_nil_iff]
        intro hnil
        rw [hnil] at ha
        exact ha rfl
      · intro c hc
        exact hacc c (List.mem_reverse.mp hc)
  | cons c rest ih =>
    intro acc hacc w hw
    rw [split_ws_aux] at hw
    by_cases hsp : is_py_space c = true
    · simp only [hsp, if_true] at hw
      by_cases ha : acc.isEmpty
      · simp only [ha, if_true] at hw
        exact ih [] (by simp) w hw
      · simp only [ha, Bool.false_eq_true, if_false, List.mem_cons] at hw
        rcases hw with hw | hw
        · subst hw
          constructor
          · simp only [ne_eq, List.reverse_eq_nil_iff]
            intro hnil
            rw [hnil] at ha
            exact ha rfl
          · intro x hx
            exact hacc x (List.mem_reverse.mp hx)
        · exact ih [] (by simp) w hw
    · simp only [hsp, if_false] at hw
      apply ih (c :: acc) _ w hw
      intro x hx
      rcases List.mem_cons.mp hx with hx | hx
      · subst hx
        simpa using hsp
      · exact hacc x hx

theorem join_space_ne_nil : ∀ ws : List Str, ws ≠ [] → (∀ w ∈ ws, w ≠ []) →
    join_space ws ≠ [] := by
  intro ws
  induction ws with
  | nil => intro h; exact absurd rfl h
  | cons w rest ih =>
    intro _ hws
    cases rest with
    | nil => exact hws w (by simp)
    | cons v r =>
      rw [join_space]
      simp

theorem mem_join_space : ∀ (ws : List Str) (c : Char), c ∈ join_space ws →
    (∃ w ∈ ws, c ∈ w) ∨ c = ' ' := by
  intro ws
  induction ws with
  | nil => intro c hc; simp [join_space] at hc
  | cons w rest ih =>
    intro c hc
    cases rest with
    | nil =>
      rw [join_space] at hc
      exact Or.inl ⟨w, by simp, hc⟩
    | cons v r =>
      rw [join_space] at hc
      rcases List.mem_append.mp hc with hc | hc
      · exact Or.inl ⟨w, by simp, hc⟩
      · rcases List.mem_cons.mp hc with hc | hc
        · exact Or.inr hc
        · rcases ih c hc with ⟨w2, hw2, hcw⟩ | hc
          · exact Or.inl ⟨w2, by simp [hw2], hcw⟩
          · exact Or.inr hc

theorem head?_join_space : ∀ (w : Str) (ws : List Str), w ≠ [] →
    (join_space (w :: ws)).head? = w.head? := by
  intro w ws hw
  cases ws with
  | nil => rfl
  | cons v r =>
    rw [join_space, List.head?_append]
    cases hh : w.head? with
    | none =>
      exact absurd (List.head?_eq_none_iff.mp hh) hw
    | some x => rfl

theorem getLast?_join_space : ∀ (ws : List Str), (∀ w ∈ ws, w ≠ []) →
    ∀ c ∈ (join_space ws).getLast?, ∃ w ∈ ws, c ∈ w := by
  intro ws
  induction ws with
  | nil => intro _ c hc; simp [join_space] at hc
  | cons w rest ih =>
    intro hws c hc
    cases rest with
    | nil =>
      rw [join_space] at hc
      rw [Option.mem_def] at hc
      exact ⟨w, by simp, List.mem_of_mem_getLast? hc⟩
    | cons v r =>
      rw [join_space] at hc
      have hne : join_space (v :: r) ≠ [] := by
        apply join_space_ne_nil _ (by simp)
        intro w2 hw2
        exact hws w2 (by simp [hw2])
      rw [List.getLast?_append_of_ne_nil _ (by simp)] at hc
      have hsp : (' ' :: join_space (v :: r)) = [' '] ++ join_space (v :: r) := by simp
      rw [hsp, List.getLast?_append_of_ne_nil _ hne] at hc
      have := ih (by intro w2 hw2; exact hws w2 (by simp [hw2])) c hc
      rcases this with ⟨w2, hw2, hcw⟩
      exact ⟨w2, by simp [hw2], hcw⟩

theorem chain'_of_all_nonws {l : Str} (h : ∀ a ∈ l, is_py_space a = false) :
    List.Chain' (fun a b => ¬ (is_py_space a = true ∧ is_py_space b = true)) l := by
  induction l with
  | nil => exact List.chain'_nil
  | cons a rest ih =>
    rw [List.chain'_cons']
    constructor
    · intro y _
      intro hcon
      have := h a (by simp)
      rw [this] at hcon
      exact Bool.false_ne_true hcon.1
    · exact ih (fun x hx => h x (by simp [hx]))

theorem chain'_join_space : ∀ (ws : List Str),
    (∀ w ∈ ws, w ≠ [] ∧ ∀ c ∈ w, is_py_space c = false) →
    List.Chain' (fun a b => ¬ (is_py_space a = true ∧ is_py_space b = true))
      (join_space ws) := by
  intro ws
  induction ws with
  | nil => intro _; exact List.chain'_nil
  | cons w rest ih =>
    intro h
    cases rest with
    | nil =>
      rw [join_space]
      exact chain'_of_all_nonws (h w (by simp)).2
    | cons v r =>
      rw [join_space]
      rw [List.chain'_append]
      refine ⟨chain'_of_all_nonws (h w (by simp)).2, ?_, ?_⟩
      · rw [List.chain'_cons']
        constructor
        · intro y hy
          have hhd : (join_space (v :: r)).head? = v.head? :=
            head?_join_space v r (h v (by simp)).1
          rw [hhd] at hy
          have hv : y ∈ v := List.mem_of_mem_head? hy
          have := (h v (by simp)).2 y hv
          intro hcon
          rw [this] at hcon
          exact Bool.false_ne_true hcon.2
        · exact ih (fun w2 hw2 => h w2 (by simp [hw2]))
      · intro x hx y hy
        have hxw : x ∈ w := List.mem_of_mem_getLast? hx
        have := (h w (by simp)).2 x hxw
        intro hcon
        rw [this] at hcon
        exact Bool.false_ne_true hcon.1

theorem collapse_ws_collapsed (s : Str) : ws_collapsed (collapse_ws s) := by
  have hwords : ∀ w ∈ split_ws s, w ≠ [] ∧ ∀ c ∈ w, is_py_space c = false :=
    split_aux_words s [] (by simp)
  rw [collapse_ws] at *
  refine ⟨?_, ?_, ?_, ?_⟩
  · intro c hc
    cases hws : split_ws s with
    | nil =>
      rw [hws] at hc
      simp [join_space] at hc
    | cons w rest =>
      rw [hws] at hc
      have hw := hwords w (by rw [hws]; simp)
      rw [head?_join_space w rest hw.1] at hc
      have hcw : c ∈ w := List.mem_of_mem_head? hc
      have := hw.2 c hcw
      simp [this]
  · intro c hc
    have := getLast?_join_space (split_ws s) (fun w hw => (hwords w hw).1) c hc
    rcases this with ⟨w, hw, hcw⟩
    have := (hwords w hw).2 c hcw
    simp [this]
  · intro c hc hsp
    rcases mem_join_space (split_ws s) c hc with ⟨w, hw, hcw⟩ | hc
    · have := (hwords w hw).2 c hcw
      rw [this] at hsp
      exact absurd hsp (by simp)
    · exact hc
  · exact chain'_join_space (split_ws s) hwords

theorem strip_mentions_collapsed (s : Str) (h : s ≠ []) :
    ws_collapsed (strip_mentions s) := by
  rw [strip_mentions]
  rw [if_neg (by simpa using h)]
  exact collapse_ws_collapsed _

/-! ## Session store lemmas (claim C8) -/

theorem no_set_preserves_none : ∀ (ops : List StoreOp) (st : SessionStore) (t : Str),
    st.sessions t = none → (∀ op ∈ ops, sets_thread t op = false) →
    (run_ops st ops).sessions t = none := by
  intro ops
  induction ops with
  | nil => intro st t h _; exact h
  | cons op rest ih =>
    intro st t h hset
    have hstep : (apply_op st op).sessions t = none := by
      cases op with
      | op_set now t2 aid hd =>
        have ht2 : ¬ t = t2 := by
          have := hset (StoreOp.op_set now t2 aid hd) (by simp)
          simp [sets_thread] at this
          intro hcon
          exact this (by rw [hcon])
        simp [apply_op, store_set, ht2, h]
      | op_delete t2 =>
        simp only [apply_op, store_delete]
        cases hs : st.sessions t2 with
        | none => exact h
        | some s =>
          by_cases ht2 : t = t2
          · simp [ht2]
          · simp [ht2, h]
      | op_get now t2 =>
        simp only [apply_op, store_get]
        cases hs : st.sessions t2 with
        | none => exact h
        | some s =>
          by_cases hexp : is_expired now s st.timeout_minutes = true
          · simp only [hexp, if_true]
            by_cases ht2 : t = t2
            · simp [ht2]
            · simp [ht2, h]
          · simp only [hexp, Bool.false_eq_true, if_false]
            exact h
      | op_touch now t2 =>
        simp only [apply_op, store_touch]
        cases hs : st.sessions t2 with
        | none => exact h
        | some s =>
          by_cases hexp : is_expired now s st.timeout_minutes = true
          · simp only [hexp, if_true]
            by_cases ht2 : t = t2
            · simp [ht2]
            · simp [ht2, h]
          · simp only [hexp, Bool.false_eq_true, if_false]
            by_cases ht2 : t = t2
            · subst ht2
              rw [hs] at h
              exact absurd h (by simp)
            · simp [ht2, h]
    have := ih (apply_op st op) t hstep (fun o ho => hset o (by simp [ho]))
    simpa [run_ops] using this

/-- Claim C8: a get returns none exactly for missing or strictly expired
entries; the expiry comparison is strict, so a probe at exactly
last_activity plus the timeout still returns the session; an expired probe
deletes the entry inline and touches nothing else; and over any operation
history from the empty store, a thread never set (or not set again since
the last delete) reads as none. -/
theorem c8_session_ttl :
    (∀ (st : SessionStore) (t : Str) (now : ℚ),
      (store_get now st t).1 = none ↔
        (st.sessions t = none ∨ ∃ s, st.sessions t = some s
          ∧ now > s.last_activity + (st.timeout_minutes : ℚ)))
    ∧ (∀ (st : SessionStore) (t : Str) (s : SessionState),
        st.sessions t = some s →
        (store_get (s.last_activity + (st.timeout_minutes : ℚ)) st t).1 = some s)
    ∧ (∀ (st : SessionStore) (t : Str) (s : SessionState) (now : ℚ),
        st.sessions t = some s → now > s.last_activity + (st.timeout_minutes : ℚ) →
        (store_get now st t).2.sessions t = none
          ∧ ∀ u, u ≠ t → (store_get now st t).2.sessions u = st.sessions u)
    ∧ (∀ (ops : List StoreOp) (t : Str) (now : ℚ) (tm : ℤ),
        (∀ op ∈ ops, sets_thread t op = false) →
        (store_get now (run_ops (empty_store tm) ops) t).1 = none)
    ∧ (∀ (pre post : List StoreOp) (t : Str) (now : ℚ) (tm : ℤ),
        (∀ op ∈ post, sets_thread t op = false) →
        (store_get now (run_ops (empty_store tm)
          (pre ++ StoreOp.op_delete t :: post)) t).1 = none) := by
  refine ⟨?_, ?_, ?_, ?_, ?_⟩
  · intro st t now
    cases hs : st.sessions t with
    | none => simp [store_get, hs]
    | some s =>
      by_cases hexp : now > s.last_activity + (st.timeout_minutes : ℚ)
      · simp only [store_get, hs, is_expired]
        simp only [hexp, decide_eq_true_eq, if_true]
        simp only [true_iff]
        exact Or.inr ⟨s, rfl, hexp⟩
      · simp only [store_get, hs, is_expired]
        rw [if_neg (by simpa using hexp)]
        constructor
        · intro hcon
          exact absurd hcon (by simp)
        · intro hcon
          rcases hcon with hcon | ⟨s2, hs2, hgt⟩
          · exact absurd hcon (by simp)
          · cases hs2
            exact absurd hgt hexp
  · intro st t s hs
    have hexp : ¬ (s.last_activity + (st.timeout_minutes : ℚ)
        > s.last_activity + (st.timeout_minutes : ℚ)) := lt_irrefl _
    simp only [store_get, hs, is_expired]
    rw [if_neg (by simpa using hexp)]
  · intro st t s now hs hgt
    constructor
    · simp only [store_get, hs, is_expired]
      rw [if_pos (by simpa using hgt)]
      simp
    · intro u hu
      simp only [store_get, hs, is_expired]
      rw [if_pos (by simpa using hgt)]
      simp [hu]
  · intro ops t now tm hset
    have hnone := no_set_preserves_none ops (empty_store tm) t rfl hset
    simp [store_get, hnone]
  · intro pre post t now tm hset
    have hrun : run_ops (empty_store tm) (pre ++ StoreOp.op_delete t :: post)
        = run_ops (apply_op (run_ops (empty_store tm) pre) (StoreOp.op_delete t)) post := by
      rw [run_ops, List.foldl_append]
      rfl
    rw [hrun]
    have hdel : (apply_op (run_ops (empty_store tm) pre) (StoreOp.op_delete t)).sessions t
        = none := by
      simp only [apply_op, store_delete]
      cases hs : (run_ops (empty_store tm) pre).sessions t with
      | none => exact hs
      | some s => simp
    have hnone := no_set_preserves_none post _ t hdel hset
    simp [store_get, hnone]

/-! ## Claim C9: mention stripping of the forwarding request -/

/-- C9: the forwarding request preserves the thread id and message count;
every non-user message is byte-identical; every user message carries the
stripped content; stripping leaves no parsable mention and yields a
whitespace-collapsed text. The construction is a pure function of the
original request, which is returned unchanged by value semantics. -/
theorem c9_strip_request (request : ChatRequest) :
    (strip_mentions_from_request request).thread_id = request.thread_id
    ∧ (strip_mentions_from_request request).messages.length = request.messages.length
    ∧ (∀ (i : ℕ) (m : ChatMessage), request.messages[i]? = some m →
        m.role ≠ user_role →
        (strip_mentions_from_request request).messages[i]? = some m)
    ∧ (∀ (i : ℕ) (m : ChatMessage), request.messages[i]? = some m →
        m.role = user_role →
        (strip_mentions_from_request request).messages[i]?
          = some { m with content := strip_content m.content })
    ∧ (∀ s : Str, parse_mention (strip_mentions s) = none)
    ∧ (∀ s : Str, s ≠ [] → ws_collapsed (strip_mentions s)) := by
  refine ⟨rfl, by simp [strip_mentions_from_request], ?_, ?_,
    parse_mention_strip_mentions, strip_mentions_collapsed⟩
  · intro i m hm hrole
    rw [strip_mentions_from_request]
    simp only [List.getElem?_map, hm]
    simp [hrole]
  · intro i m hm hrole
    rw [strip_mentions_from_request]
    simp only [List.getElem?_map, hm]
    simp [hrole]

/-- Closed instance of claim C9 at a concrete request, through the theorem. -/
theorem c9_strip_request_witness :
    (strip_mentions_from_request req_simple).thread_id = req_simple.thread_id
    ∧ parse_mention (strip_mentions ("@alpha hello".data)) = none :=
  ⟨(c9_strip_request req_simple).1,
   (c9_strip_request req_simple).2.2.2.2.1 ("@alpha hello".data)⟩

/-! ## Claim C6: retryable error classification -/

/-- Counterexample to claim C6 as stated: an error whose status_code is 404
(a non-429 4xx, non-retryable per the claim) but whose text contains the
three characters 429 is classified retryable by the code. -/
theorem c6_counterexample :
    is_retryable_error { text := "429".data, status_code := some 404 } = true
    ∧ is_retryable_claim { text := "429".data, status_code := some 404 } = false := by
  constructor
  · decide
  · decide

/-- Amended claim C6: the code classifies an error as retryable exactly when
its lowercased text mentions one of the timeout / connection / network /
unavailable terms, or textually contains 429, or textually contains one of
500, 502, 503, 504, or its status_code attribute is 429 or in 500..599. In
every other case, including every other 4xx status, it is non-retryable. -/
theorem c6_amended (e : PyError) :
    is_retryable_error e =
      (retry_terms.any (fun t => contains_sub (lower_str e.text) t)
        || contains_sub (lower_str e.text) ("429".data)
        || (contains_sub (lower_str e.text) ("5".data)
            && (["500".data, "502".data, "503".data, "504".data].any
                (fun t => contains_sub (lower_str e.text) t)))
        || (match e.status_code with
            | some c => (c = 429 : Bool) || (500 ≤ c && c < 600)
            | none => false)) := by
  rw [is_retryable_error]
  cases h1 : (retry_terms.any fun t => contains_sub (lower_str e.text) t) with
  | true => simp [h1]
  | false =>
    rw [if_neg (by simp [h1])]
    simp only [h1, Bool.false_or]
    cases h2 : contains_sub (lower_str e.text) ("429".data) with
    | true => simp [h2]
    | false =>
      rw [if_neg (by simp [h2])]
      simp only [h2, Bool.false_or]
      cases h3 : (contains_sub (lower_str e.text) ("5".data)
          && (["500".data, "502".data, "503".data, "504".data].any
              (fun t => contains_sub (lower_str e.text) t))) with
      | true => simp [h3]
      | false =>
        rw [if_neg (by simp [h3])]
        simp only [h3, Bool.false_or]
        cases hc : e.status_code with
        | none => rfl
        | some c =>
          show (if ((c = 429 : Bool) || (500 ≤ c && c < 600)) = true then true
                else if ((400 ≤ c : Bool) && (c < 500 : Bool)) = true then false
                else false)
              = ((c = 429 : Bool) || (500 ≤ c && c < 600))
          cases h4 : ((c = 429 : Bool) || (500 ≤ c && c < 600)) with
          | true =>
            rw [if_pos (by simp [h4])]
          | false =>
            rw [if_neg (by simp [h4])]
            cases h5 : ((400 ≤ c : Bool) && (c < 500 : Bool)) with
            | true =>
              rw [if_pos (by simp [h5])]
            | false =>
              rw [if_neg (by simp [h5])]

/-! ## Claim C2: mid-stream failures restart the agent call (code bug) -/

/-- The failing scenario for claim C2: the first attempt yields RUN_STARTED
and then raises a retryable transport error; the code then sleeps and starts
a second attempt even though an event of attempt 0 was already yielded
downstream, contradicting both the specification and the forward_request
docstring (retries only before events have started streaming). -/
theorem c2_mid_stream_retry :
    (forward_request cfg_retry2 agent_alpha mid_stream_behavior).steps
      = [ProxyStep.start 0, ProxyStep.yield_ 0 (AGUIEvent.run_started none),
         ProxyStep.sleep 1 500, ProxyStep.start 1,
         ProxyStep.yield_ 1 (AGUIEvent.run_started none),
         ProxyStep.yield_ 1 AGUIEvent.run_finished]
    ∧ (forward_request cfg_retry2 agent_alpha mid_stream_behavior).attempts = 2
    ∧ (forward_request cfg_retry2 agent_alpha mid_stream_behavior).failure = none
    ∧ ProxyStep.yield_ 0 (AGUIEvent.run_started none)
        ∈ (forward_request cfg_retry2 agent_alpha mid_stream_behavior).steps
    ∧ ProxyStep.start 1
        ∈ (forward_request cfg_retry2 agent_alpha mid_stream_behavior).steps := by
  refine ⟨?_, ?_, ?_, ?_, ?_⟩ <;> decide

/-! ## Proxy retry trace lemmas (claim C5) -/

theorem flatMap_segment {α β : Type} {l : List α} {f : α → List β} {x : α}
    (h : x ∈ l) : f x <:+: l.flatMap f := by
  induction l with
  | nil => simp at h
  | cons a t ih =>
    rcases List.mem_cons.mp h with h | h
    · subst h
      rw [List.flatMap_cons]
      exact (List.prefix_append _ _).isInfix
    · rw [List.flatMap_cons]
      exact (ih h).trans (List.suffix_append _ _).isInfix

theorem forward_loop_acc (cfg : RetryConfig) (agent : AgentConfig)
    (behavior : ℕ → AttemptSpec) :
    ∀ (r k : ℕ) (last : Option PyError) (steps : List ProxyStep),
      (forward_loop cfg agent behavior k r last steps).steps
          = steps ++ (forward_loop cfg agent behavior k r last []).steps
        ∧ (forward_loop cfg agent behavior k r last steps).attempts
          = (forward_loop cfg agent behavior k r last []).attempts
        ∧ (forward_loop cfg agent behavior k r last steps).failure
          = (forward_loop cfg agent behavior k r last []).failure := by
  intro r
  induction r with
  | zero =>
    intro k last steps
    simp [forward_loop, proxy_finish]
  | succ r ih =>
    intro k last steps
    rw [forward_loop, forward_loop]
    cases hf : (behavior k).failure with
    | none => simp
    | some e =>
      by_cases hr : is_retryable_error e = true
      · simp only [hf, hr, if_true]
        by_cases hr0 : r = 0
        · subst hr0
          simp [proxy_finish]
        · rw [if_neg hr0, if_neg hr0]
          have h1 := ih (k + 1) (some e)
            (steps ++ ((if k = 0 then [] else [ProxyStep.sleep k (get_delay_ms cfg k)])
              ++ [ProxyStep.start k]) ++ (behavior k).events.map (ProxyStep.yield_ k))
          have h2 := ih (k + 1) (some e)
            ([] ++ ((if k = 0 then [] else [ProxyStep.sleep k (get_delay_ms cfg k)])
              ++ [ProxyStep.start k]) ++ (behavior k).events.map (ProxyStep.yield_ k))
          refine ⟨?_, ?_, ?_⟩
          · rw [h1.1, h2.1]
            simp
          · rw [h1.2.1, h2.2.1]
          · rw [h1.2.2, h2.2.2]
      · simp only [hf]
        rw [if_neg hr, if_neg hr]
        simp [proxy_finish]

theorem forward_loop_normal (cfg : RetryConfig) (agent : AgentConfig)
    (behavior : ℕ → AttemptSpec) :
    ∀ (r k : ℕ) (last : Option PyError),
      ∃ n, n ≤ r
        ∧ (forward_loop cfg agent behavior k r last []).steps
            = (List.range' k n).flatMap (attempt_block cfg behavior)
        ∧ (forward_loop cfg agent behavior k r last []).attempts = k + n := by
  intro r
  induction r with
  | zero =>
    intro k last
    exact ⟨0, le_refl 0, by simp [forward_loop, proxy_finish], by simp [forward_loop, proxy_finish]⟩
  | succ r ih =>
    intro k last
    rw [forward_loop]
    have hblock : ([] ++ ((if k = 0 then [] else [ProxyStep.sleep k (get_delay_ms cfg k)])
        ++ [ProxyStep.start k]) ++ (behavior k).events.map (ProxyStep.yield_ k))
        = attempt_block cfg behavior k := by
      rw [attempt_block]
      simp
    cases hf : (behavior k).failure with
    | none =>
      refine ⟨1, by omega, ?_, by simp⟩
      simp only []
      rw [hblock]
      simp [List.range']
    | some e =>
      by_cases hr : is_retryable_error e = true
      · simp only [hr, if_true]
        by_cases hr0 : r = 0
        · subst hr0
          rw [if_pos rfl]
          refine ⟨1, by omega, ?_, by simp [proxy_finish]⟩
          simp only [proxy_finish]
          rw [hblock]
          simp [List.range']
        · rw [if_neg hr0]
          rcases ih (k + 1) (some e) with ⟨n, hn, hsteps, hatt⟩
          refine ⟨n + 1, by omega, ?_, ?_⟩
          · have hacc := forward_loop_acc cfg agent behavior r (k + 1) (some e)
              ([] ++ ((if k = 0 then [] else [ProxyStep.sleep k (get_delay_ms cfg k)])
                ++ [ProxyStep.start k]) ++ (behavior k).events.map (ProxyStep.yield_ k))
            rw [hacc.1, hblock, hsteps]
            have : List.range' k (n + 1) = k :: List.range' (k + 1) n := by
              simp [List.range']
            rw [this, List.flatMap_cons]
          · have hacc := forward_loop_acc cfg agent behavior r (k + 1) (some e)
              ([] ++ ((if k = 0 then [] else [ProxyStep.sleep k (get_delay_ms cfg k)])
                ++ [ProxyStep.start k]) ++ (behavior k).events.map (ProxyStep.yield_ k))
            rw [hacc.2.1, hatt]
            omega
      · have hrf : is_retryable_error e = false := by simpa using hr
        simp only [hrf, Bool.false_eq_true, if_false]
        refine ⟨1, by omega, ?_, by simp [proxy_finish]⟩
        simp only [proxy_finish]
        rw [hblock]
        simp [List.range']

theorem mem_attempt_block_start {cfg : RetryConfig} {behavior : ℕ → AttemptSpec}
    {j k : ℕ} : ProxyStep.start j ∈ attempt_block cfg behavior k ↔ j = k := by
  rw [attempt_block]
  by_cases hk : k = 0 <;> simp [hk, eq_comm]

theorem mem_attempt_block_sleep {cfg : RetryConfig} {behavior : ℕ → AttemptSpec}
    {j k : ℕ} {d : ℤ} : ProxyStep.sleep j d ∈ attempt_block cfg behavior k ↔
      (j = k ∧ k ≠ 0 ∧ d = get_delay_ms cfg k) := by
  rw [attempt_block]
  by_cases hk : k = 0
  · simp [hk]
  · simp only [hk, if_false]
    constructor
    · intro h
      simp only [List.append_assoc, List.mem_append, List.mem_singleton,
        List.mem_map] at h
      rcases h with h | h | h
      · injection h with h1 h2
        exact ⟨h1, hk, h2⟩
      · exact absurd h (by simp)
      · rcases h with ⟨e2, _, h3⟩
        exact absurd h3 (by simp)
    · intro ⟨h1, _, h3⟩
      subst h1
      subst h3
      simp

/-- Claim C5: the backoff delay is 0 for the first attempt and
min(base_delay_ms * 2^(k-1), max_delay_ms) before 0-indexed attempt k; the
proxy performs at most max_attempts attempts and sleeps exactly that delay
immediately before each retry attempt, and only there. -/
theorem c5_retry_bounds (cfg : RetryConfig) (agent : AgentConfig)
    (behavior : ℕ → AttemptSpec) (hmax : 1 ≤ cfg.max_attempts) :
    c5_conclusion cfg agent behavior := by
  obtain ⟨n, hn, hsteps, hatt⟩ :=
    forward_loop_normal cfg agent behavior cfg.max_attempts 0 none
  rw [c5_conclusion]
  have hfw : forward_request cfg agent behavior
      = forward_loop cfg agent behavior 0 cfg.max_attempts none [] := rfl
  refine ⟨fun k => rfl, ?_, ?_, ?_, ?_⟩
  · rw [hfw, hatt]
    omega
  · intro k hk
    rw [hfw, hsteps] at hk
    rcases List.mem_flatMap.mp hk with ⟨j, hj, hmem⟩
    have hkj := mem_attempt_block_start.mp hmem
    subst hkj
    rcases List.mem_range'.mp hj with ⟨i, hi, hji⟩
    omega
  · intro k d hk
    rw [hfw, hsteps] at hk
    rcases List.mem_flatMap.mp hk with ⟨j, hj, hmem⟩
    rcases mem_attempt_block_sleep.mp hmem with ⟨hkj, hj0, hd⟩
    rw [← hkj] at hj hj0 hd
    refine ⟨hj0, ?_, ?_⟩
    · rw [hd, get_delay_ms, if_neg hj0]
    · rw [hfw, hsteps]
      exact List.mem_flatMap.mpr ⟨k, hj, mem_attempt_block_start.mpr rfl⟩
  · intro k hk hk0
    rw [hfw, hsteps] at hk ⊢
    rcases List.mem_flatMap.mp hk with ⟨j, hj, hmem⟩
    have hkj := mem_attempt_block_start.mp hmem
    rw [← hkj] at hj
    have hpre : [ProxyStep.sleep k (get_delay_ms cfg k), ProxyStep.start k]
        <+: attempt_block cfg behavior k := by
      rw [attempt_block, if_neg hk0]
      exact ⟨(behavior k).events.map (ProxyStep.yield_ k), by simp⟩
    exact hpre.isInfix.trans (flatMap_segment hj)

/-- Closed instance of claim C5 at a concrete configuration and behavior,
through the theorem. -/
theorem c5_retry_bounds_witness :
    c5_conclusion cfg_retry3 agent_alpha always_fail_behavior :=
  c5_retry_bounds cfg_retry3 agent_alpha always_fail_behavior (by decide)

/-! ## Translator lemmas (claim C3) -/

theorem c3_duplicate_predicate (text accumulated : Str) :
    is_duplicate_content text accumulated = claim_duplicate text accumulated := by
  rw [is_duplicate_content, claim_duplicate]
  by_cases h1 : accumulated.isEmpty = true
  · rw [if_pos h1, if_pos h1]
  · have h1n : ¬ (accumulated.isEmpty = true) := h1
    rw [if_neg h1n, if_neg h1n]
    by_cases h2 : text = accumulated
    · rw [if_pos h2, if_pos h2]
    · rw [if_neg h2, if_neg h2]
      by_cases h3 : contains_sub accumulated text = true
      · rw [if_pos h3, if_pos h3]
      · have h3n : ¬ (contains_sub accumulated text = true) := h3
        rw [if_neg h3n, if_neg h3n]
        have h4 : ¬ (text.isPrefixOf accumulated = true) := by
          cases hp : text.isPrefixOf accumulated
          · simp
          · exact absurd (contains_sub_of_isPrefixOf hp) h3
        rw [if_neg h4]
        by_cases h6 : accumulated.isPrefixOf text = true
        · rw [if_pos h6, if_pos (by simp [h6, h2])]
        · have h6n : ¬ (accumulated.isPrefixOf text = true) := h6
          rw [if_neg h6n,
            if_neg (show ¬ ((accumulated.isPrefixOf text
              && decide (text ≠ accumulated)) = true) by simp [h6])]
          by_cases h7 : collapse_ws text = collapse_ws accumulated
          · rw [if_pos h7, if_pos h7]
          · rw [if_neg h7, if_neg h7]
            by_cases h8 : accumulated.length > 50
            · rw [if_pos h8]
              by_cases h9 : (0.9 : ℚ) ≤ (text.length : ℚ) / (accumulated.length : ℚ)
                  ∧ (text.length : ℚ) / (accumulated.length : ℚ) ≤ (1.1 : ℚ)
              · rw [if_pos h9]
                by_cases h10 : (common_prefix_len text accumulated : ℚ)
                    > (accumulated.length : ℚ) * (0.8 : ℚ)
                · rw [if_pos h10, if_pos ⟨h8, h9.1, h9.2, h10⟩]
                · rw [if_neg h10, if_neg (by intro hcon; exact h10 hcon.2.2.2)]
              · rw [if_neg h9, if_neg (by intro hcon; exact h9 ⟨hcon.2.1, hcon.2.2.1⟩)]
            · rw [if_neg h8, if_neg (by intro hcon; exact h8 hcon.1)]

theorem content_deltas_cons_start (mid : Str) (l : List AGUIEvent) :
    content_deltas (AGUIEvent.text_message_start mid :: l) = content_deltas l := by
  rw [content_deltas, content_deltas, List.filterMap_cons]

theorem content_deltas_map_block (mid : Str) (ds : List Str) :
    content_deltas (ds.map (AGUIEvent.text_message_content mid)
      ++ [AGUIEvent.text_message_end mid, AGUIEvent.run_finished]) = ds := by
  induction ds with
  | nil => rfl
  | cons d rest ih =>
    simp only [List.map_cons, List.cons_append]
    rw [content_deltas, List.filterMap_cons]
    simp only []
    rw [content_deltas] at ih
    rw [ih]

theorem content_deltas_translate_stream (mid : Str) (dn : Option Str)
    (frames : List A2AFrame) :
    content_deltas (translate_stream mid dn frames)
      = content_deltas (translate_frames mid frames false []) := by
  simp only [translate_stream]
  rw [content_deltas, content_deltas, List.filterMap_cons]
  cases dn with
  | none => rfl
  | some d =>
    by_cases hd : d.isEmpty = true
    · simp only [hd, if_true]
    · simp only [hd, Bool.false_eq_true, if_false]

theorem translate_response_status (d message_id acc : Str) (hd : d ≠ [])
    (hpre : acc.isPrefixOf d = false) :
    translate_response (status_frame d) message_id true acc
      = [(some (AGUIEvent.text_message_content message_id d), true, acc ++ d)] := by
  rw [status_frame, translate_response]
  simp only [extract_status_text, first_text_part]
  rw [if_neg (by simpa using hd)]
  rw [emit_text_events]
  simp only [if_true, hpre, Bool.false_eq_true, if_false]
  simp [hd]

theorem translate_response_status_first (d message_id : Str) (hd : d ≠ []) :
    translate_response (status_frame d) message_id false []
      = [(some (AGUIEvent.text_message_start message_id), true, []),
         (some (AGUIEvent.text_message_content message_id d), true, d)] := by
  rw [status_frame, translate_response]
  simp only [extract_status_text, first_text_part]
  rw [if_neg (by simpa using hd)]
  rw [emit_text_events]
  have hp : ([] : Str).isPrefixOf d = true := by
    simp [List.isPrefixOf]
  simp only [hp, if_true, Bool.false_eq_true, if_false]
  simp [hd]

theorem translate_response_task_dup (message_id acc : Str) (hacc : acc ≠ []) :
    translate_response (task_frame acc) message_id true acc
      = [(none, true, acc)] := by
  have hdup : is_duplicate_content acc acc = true := by
    rw [is_duplicate_content]
    rw [if_neg (by simpa using hacc)]
    simp
  rw [task_frame, translate_response]
  simp [extract_task_text, first_text_part, hdup, hacc]

theorem translate_frames_status_task (message_id : Str) :
    ∀ (ds : List Str) (acc : Str), acc ≠ [] →
      (∀ d ∈ ds, d ≠ []) →
      (∀ (i : ℕ) (h : i < ds.length),
        (acc ++ (ds.take i).flatten).isPrefixOf (ds.get ⟨i, h⟩) = false) →
      translate_frames message_id
          (ds.map status_frame ++ [task_frame (acc ++ ds.flatten)]) true acc
        = ds.map (AGUIEvent.text_message_content message_id)
          ++ [AGUIEvent.text_message_end message_id, AGUIEvent.run_finished] := by
  intro ds
  induction ds with
  | nil =>
    intro acc hacc _ _
    simp only [List.map_nil, List.nil_append, List.flatten_nil, List.append_nil]
    rw [translate_frames]
    rw [translate_response_task_dup message_id acc hacc]
    rw [consume_tuples]
    simp only [List.foldl_cons, List.foldl_nil, Option.toList_none, List.append_nil]
    rw [translate_frames]
    simp
  | cons d rest ih =>
    intro acc hacc hd hpre
    have hd0 : d ≠ [] := hd d (by simp)
    have hp0 : acc.isPrefixOf d = false := by
      have := hpre 0 (by simp)
      simpa using this
    simp only [List.map_cons, List.cons_append]
    rw [translate_frames]
    rw [translate_response_status d message_id acc hd0 hp0]
    rw [consume_tuples]
    simp only [List.foldl_cons, List.foldl_nil, Option.toList_some, List.nil_append]
    have hflat : acc ++ (d :: rest).flatten = (acc ++ d) ++ rest.flatten := by
      simp [List.flatten_cons]
    rw [hflat]
    have hrec := ih (acc ++ d) (by simp [hacc]) (fun x hx => hd x (by simp [hx]))
      (by
        intro i h
        have := hpre (i + 1) (by simpa using Nat.succ_lt_succ h)
        simp only [List.take_succ_cons, List.flatten_cons, List.get_cons_succ] at this
        rw [← List.append_assoc] at this
        exact this)
    rw [hrec]
    rfl

/-- Amended claim C3: the duplicate-suppression predicate equals the
claimed cascade on every input, and for non-empty status deltas none of
which extends the prior concatenation as a prefix, the translated stream
carries exactly the N content events d1..dN with the final Task
suppressed. -/
theorem c3_status_deltas (message_id : Str) (display_name : Option Str)
    (ds : List Str) (hne : ds ≠ []) (hd : ∀ d ∈ ds, d ≠ [])
    (hpre : ∀ (i : ℕ) (h : i < ds.length), i ≠ 0 →
      ((ds.take i).flatten).isPrefixOf (ds.get ⟨i, h⟩) = false) :
    (∀ text accumulated : Str,
      is_duplicate_content text accumulated = claim_duplicate text accumulated)
    ∧ c3_conclusion message_id display_name ds := by
  refine ⟨c3_duplicate_predicate, ?_⟩
  rcases ds with _ | ⟨d, rest⟩
  · exact absurd rfl hne
  have hd0 : d ≠ [] := hd d (by simp)
  have hframes : translate_frames message_id
      ((d :: rest).map status_frame ++ [task_frame (d :: rest).flatten]) false []
      = AGUIEvent.text_message_start message_id
        :: (d :: rest).map (AGUIEvent.text_message_content message_id)
        ++ [AGUIEvent.text_message_end message_id, AGUIEvent.run_finished] := by
    simp only [List.map_cons, List.cons_append]
    rw [translate_frames]
    rw [translate_response_status_first d message_id hd0]
    rw [consume_tuples]
    simp only [List.foldl_cons, List.foldl_nil, Option.toList_some, List.nil_append]
    have hflat : (d :: rest).flatten = d ++ rest.flatten := by simp
    rw [hflat]
    rw [translate_frames_status_task message_id rest d hd0
      (fun x hx => hd x (by simp [hx]))
      (by
        intro i h
        have := hpre (i + 1) (by simpa using Nat.succ_lt_succ h) (by omega)
        simp only [List.take_succ_cons, List.flatten_cons, List.get_cons_succ] at this
        exact this)]
    simp
  constructor
  · rw [content_deltas_translate_stream, hframes, List.cons_append,
      content_deltas_cons_start, content_deltas_map_block]
  · exact hframes

/-- Counterexample to claim C3 as stated: for the status deltas a and ab
followed by a final Task carrying their concatenation aab, the translator
emits three content events with deltas a, b, aab - not two events with
deltas a, ab, and the final Task is not suppressed. -/
theorem c3_counterexample :
    content_deltas (translate_stream [] none
        [status_frame ['a'], status_frame ['a', 'b'], task_frame ['a', 'a', 'b']])
      = [['a'], ['b'], ['a', 'a', 'b']]
    ∧ (['a', 'a', 'b'] : Str) = ['a'] ++ ['a', 'b']
    ∧ [['a'], ['b'], ['a', 'a', 'b']] ≠ [['a'], ['a', 'b']] := by
  refine ⟨?_, ?_, ?_⟩ <;> decide

/-- Closed instance of the amended claim C3, through the theorem. -/
theorem c3_status_deltas_witness :
    c3_conclusion [] none [['H', 'i'], ['!']] :=
  (c3_status_deltas [] none [['H', 'i'], ['!']] (by decide) (by decide) (by decide)).2

/-! ## Claim C4: fallback notice events -/

theorem fallback_message_eq (name : Str) (n : ℕ) :
    fallback_message (("Agent '".data) ++ name ++ ("' unavailable after ".data)
        ++ nat_str n ++ (" attempt(s). ".data))
      = c4_claim_delta name n ++ ('\n' :: '\n' :: []) := by
  rw [fallback_message, c4_claim_delta]
  have h1 : ("[Notice: ".data : Str) ++ ("Agent '".data) = "[Notice: Agent '".data := by
    decide
  have h2 : ((" attempt(s). ".data : Str) ++ "Routing to general assistant.]\n\n".data)
      = (" attempt(s). Routing to general assistant.]".data : Str)
        ++ ('\n' :: '\n' :: []) := by
    decide
  simp only [List.append_assoc]
  rw [← List.append_assoc (("[Notice: ".data : Str)) (("Agent '".data : Str)), h1, h2]

/-- Amended claim C4: the generator appends exactly the three synthetic
notice events, whose content delta is the claimed notice text followed by
two newline characters, then forwards the same request to the default
agent; a failed default agent instead gets a single RUN_ERROR and no
further forwarding. -/
theorem c4_fallback (cfg : AgentsConfig) (agent default_agent : AgentConfig)
    (req : ChatRequest) (mid : Str)
    (proxy_run : AgentConfig → ChatRequest → List AGUIEvent × Option AgentProxyError)
    (evs : List AGUIEvent) (e : AgentProxyError)
    (hp : proxy_run agent req = (evs, some e)) :
    c4_conclusion cfg agent default_agent req mid proxy_run evs e := by
  rw [c4_conclusion]
  constructor
  · intro hnd hfb
    rw [event_generator, hp]
    simp only [hnd, Bool.false_eq_true, if_false, hfb]
    rw [yield_fallback_context, failure_context_of, fallback_message_eq]
  · intro hd
    rw [event_generator, hp]
    simp only [hd, if_true]

/-- Counterexample to claim C4 as stated: the generator emits the notice
content delta with two trailing newline characters, so it is not the exact
string the claim gives. -/
theorem c4_counterexample :
    (event_generator cfg_alpha agent_alpha agent_beta req_simple []
        proxy_run_fail_alpha).events
      = [AGUIEvent.run_error proxy_error_alpha.message,
         AGUIEvent.text_message_start [],
         AGUIEvent.text_message_content []
           (c4_claim_delta ("Alpha".data) 3 ++ ('\n' :: '\n' :: [])),
         AGUIEvent.text_message_end [],
         AGUIEvent.run_started (some ("Beta".data)), AGUIEvent.run_finished]
    ∧ c4_claim_delta ("Alpha".data) 3 ++ ('\n' :: '\n' :: [])
        ≠ c4_claim_delta ("Alpha".data) 3 := by
  constructor
  · decide
  · decide

/-- Closed instance of the amended claim C4, through the theorem. -/
theorem c4_fallback_witness :
    c4_conclusion cfg_alpha agent_alpha agent_beta req_simple []
      proxy_run_fail_alpha [AGUIEvent.run_error proxy_error_alpha.message]
      proxy_error_alpha :=
  c4_fallback cfg_alpha agent_alpha agent_beta req_simple []
    proxy_run_fail_alpha [AGUIEvent.run_error proxy_error_alpha.message]
    proxy_error_alpha (by decide)

/-! ## Semantic index lemmas (claims C7 and C10) -/

theorem build_e2a_key_bounds : ∀ (agents : List AgentConfig) (n : ℕ)
    (p : ℕ × Str), p ∈ build_e2a n agents → n ≤ p.1 ∧ p.1 < n + agents.length := by
  intro agents
  induction agents with
  | nil => intro n p hp; simp [build_e2a] at hp
  | cons a rest ih =>
    intro n p hp
    rw [build_e2a] at hp
    rcases List.mem_append.mp hp with hp | hp
    · cases hr : a.routing with
      | none => rw [hr] at hp; simp at hp
      | some r =>
        rw [hr] at hp
        rcases List.mem_map.mp hp with ⟨ex, _, hex⟩
        subst hex
        simp
    · have := ih (n + 1) p hp
      simp only [List.length_cons]
      omega

theorem build_e2a_group (encode : Str → List ℚ) :
    ∀ (agents : List AgentConfig) (n k : ℕ) (a : AgentConfig) (r : AgentRoutingConfig),
      agents[k]? = some a → a.routing = some r →
      (build_e2a n agents).filterMap
          (fun p => if p.1 = n + k then some (encode p.2) else none)
        = r.examples.map encode := by
  intro agents
  induction agents with
  | nil => intro n k a r ha _; simp at ha
  | cons a0 rest ih =>
    intro n k a r ha hr
    rw [build_e2a, List.filterMap_append]
    cases k with
    | zero =>
      simp only [List.getElem?_cons_zero, Option.some.injEq] at ha
      subst ha
      rw [hr]
      have hgroup : (r.examples.map (fun ex => (n, ex))).filterMap
          (fun p : ℕ × Str => if p.1 = n + 0 then some (encode p.2) else none)
          = r.examples.map encode := by
        induction r.examples with
        | nil => rfl
        | cons e es ihe =>
          simp only [List.map_cons, List.filterMap_cons]
          rw [if_pos (by omega)]
          rw [ihe]
      rw [hgroup]
      have hrest : (build_e2a (n + 1) rest).filterMap
          (fun p : ℕ × Str => if p.1 = n + 0 then some (encode p.2) else none) = [] := by
        rw [List.filterMap_eq_nil_iff]
        intro p hp
        have := build_e2a_key_bounds rest (n + 1) p hp
        rw [if_neg (by omega)]
      rw [hrest, List.append_nil]
    | succ k =>
      simp only [List.getElem?_cons_succ] at ha
      have hgroup : (match a0.routing with
          | some r0 => r0.examples.map (fun ex => (n, ex))
          | none => ([] : List (ℕ × Str))).filterMap
          (fun p : ℕ × Str => if p.1 = n + (k + 1) then some (encode p.2) else none)
          = [] := by
        rw [List.filterMap_eq_nil_iff]
        intro p hp
        cases hr0 : a0.routing with
        | none => rw [hr0] at hp; simp at hp
        | some r0 =>
          rw [hr0] at hp
          rcases List.mem_map.mp hp with ⟨ex, _, hex⟩
          subst hex
          rw [if_neg (by omega)]
      rw [hgroup, List.nil_append]
      have := ih (n + 1) k a r ha hr
      have harith : ∀ p : ℕ × Str,
          (if p.1 = n + (k + 1) then some (encode p.2) else none)
            = (if p.1 = (n + 1) + k then some (encode p.2) else none) := by
        intro p
        by_cases hp : p.1 = n + (k + 1)
        · rw [if_pos hp, if_pos (by omega)]
        · rw [if_neg hp, if_neg (by omega)]
      rw [funext harith]
      exact this

theorem findIdx_of_mem_nodup :
    ∀ (agents : List AgentConfig) (agent : AgentConfig),
      agent ∈ agents → ((agents.map (fun a => a.id)).Nodup) →
      ∃ k, agents.findIdx? (fun a => a.id == agent.id) = some k
        ∧ agents[k]? = some agent := by
  intro agents
  induction agents with
  | nil => intro agent h; simp at h
  | cons a0 rest ih =>
    intro agent hmem hnodup
    rw [List.map_cons, List.nodup_cons] at hnodup
    by_cases h0 : a0.id = agent.id
    · have hagent : a0 = agent := by
        rcases List.mem_cons.mp hmem with h | h
        · exact h.symm
        · exfalso
          apply hnodup.1
          rw [h0]
          exact List.mem_map.mpr ⟨agent, h, rfl⟩
      refine ⟨0, ?_, by simp [hagent]⟩
      rw [List.findIdx?_cons, if_pos (by simp [h0])]
    · have hmem2 : agent ∈ rest := by
        rcases List.mem_cons.mp hmem with h | h
        · exact absurd (congrArg (fun a => a.id) h.symm) h0
        · exact h
      rcases ih agent hmem2 hnodup.2 with ⟨k, hfind, hget⟩
      refine ⟨k + 1, ?_, by simpa using hget⟩
      rw [List.findIdx?_cons, if_neg (by simp [h0]), List.findIdx?_succ, hfind]
      rfl

theorem zip_self_map {f : ℕ × Str → List ℚ} :
    ∀ l : List (ℕ × Str), l.zip (l.map f) = l.map (fun p => (p, f p)) := by
  intro l
  induction l with
  | nil => rfl
  | cons x xs ih => simp [ih]

theorem cached_similarity_eq (encode : Str → List ℚ) (idx : SemanticIndex)
    (agent : AgentConfig) (msg : Str) (k : ℕ)
    (hfind : idx.agents.findIdx? (fun a => a.id == agent.id) = some k) :
    cached_similarity encode idx agent msg =
      (if ((idx.example_to_agent.zip idx.embeddings).filterMap
            (fun p => if p.1.1 = k then some p.2 else none)).isEmpty = true then none
       else some (list_max (((idx.example_to_agent.zip idx.embeddings).filterMap
            (fun p => if p.1.1 = k then some p.2 else none)).map
         (fun row => dotQ row (encode msg))))) := by
  rw [cached_similarity, hfind]

/-- Claim C10: for an agent of the catalog with a non-empty example list
(catalog ids unique, per the data-model invariant), the cached branch of
compute_similarity computed from the built index equals the on-demand
branch that re-embeds the agent examples, and compute_similarity takes the
cached branch and returns exactly that value. -/
theorem c10_cached_on_demand (encode : Str → List ℚ) (cfg : AgentsConfig)
    (agent : AgentConfig) (msg : Str) (r : AgentRoutingConfig)
    (hmem : agent ∈ cfg.agents)
    (hids : (cfg.agents.map (fun a => a.id)).Nodup)
    (hr : agent.routing = some r) (hex : r.examples ≠ []) :
    cached_similarity encode (build_index encode cfg) agent msg
      = some (on_demand_similarity encode agent msg)
    ∧ (msg_valid msg = true →
        compute_similarity encode (build_index encode cfg) agent msg
          = .ok (on_demand_similarity encode agent msg)) := by
  rcases findIdx_of_mem_nodup cfg.agents agent hmem hids with ⟨k, hfind, hget⟩
  have hcached : cached_similarity encode (build_index encode cfg) agent msg
      = some (on_demand_similarity encode agent msg) := by
    rw [cached_similarity_eq encode (build_index encode cfg) agent msg k hfind]
    simp only [build_index]
    rw [zip_self_map]
    have hrows : ((build_e2a 0 cfg.agents).map
          (fun p => (p, encode p.2))).filterMap
          (fun p => if p.1.1 = k then some p.2 else none)
        = r.examples.map encode := by
      rw [List.filterMap_map]
      have hcomp : ((fun p : (ℕ × Str) × List ℚ => if p.1.1 = k then some p.2 else none)
          ∘ (fun p : ℕ × Str => (p, encode p.2)))
          = (fun p : ℕ × Str => if p.1 = 0 + k then some (encode p.2) else none) := by
        funext p
        by_cases hp : p.1 = k
        · rw [Function.comp_apply]
          simp only []
          rw [if_pos hp, if_pos (by omega)]
        · rw [Function.comp_apply]
          simp only []
          rw [if_neg hp, if_neg (by omega)]
      rw [hcomp]
      exact build_e2a_group encode cfg.agents 0 k agent r hget hr
    rw [hrows]
    have hne : (r.examples.map encode).isEmpty = false := by
      cases hx : r.examples with
      | nil => exact absurd hx hex
      | cons e es => simp [hx]
    rw [if_neg (by simp [hne])]
    rw [on_demand_similarity, hr]
    rw [List.map_map]
    rfl
  refine ⟨hcached, ?_⟩
  intro hvalid
  rw [compute_similarity]
  rw [if_neg (by simp [hvalid])]
  rw [hr]
  simp only []
  rw [if_neg (by simp [hex]), hcached]

/-- Closed instance of claim C10 at a concrete catalog and embedding,
through the theorem. -/
theorem c10_cached_on_demand_witness :
    cached_similarity encode_one (build_index encode_one cfg_alpha) agent_alpha
        ("go".data)
      = some (on_demand_similarity encode_one agent_alpha ("go".data)) :=
  (c10_cached_on_demand encode_one cfg_alpha agent_alpha ("go".data)
    { priority := 1, threshold := 1, examples := ["hi".data] }
    (by decide) (by decide) (by decide) (by decide)).1

/-! ## The match dictionary fold (claim C7) -/

theorem dict_update_append {m : List (ℕ × ℚ × Str)} {k : ℕ} {v : ℚ × Str}
    (h : dict_get m k = none) : dict_update m k v = m ++ [(k, v)] := by
  induction m with
  | nil => rfl
  | cons p rest ih =>
    rw [dict_get] at h
    by_cases hp : p.1 = k
    · rw [if_pos hp] at h
      exact absurd h (by simp)
    · rw [if_neg hp] at h
      rcases p with ⟨k2, v2⟩
      rw [dict_update, if_neg hp, ih h]
      rfl

theorem dict_get_append_single {m : List (ℕ × ℚ × Str)} {k : ℕ} {cur : ℚ × Str}
    (h : dict_get m k = none) : dict_get (m ++ [(k, cur)]) k = some cur := by
  induction m with
  | nil => simp [dict_get]
  | cons p rest ih =>
    rw [dict_get] at h
    by_cases hp : p.1 = k
    · rw [if_pos hp] at h
      exact absurd h (by simp)
    · rw [if_neg hp] at h
      rw [List.cons_append, dict_get, if_neg hp]
      exact ih h

theorem dict_update_append_single {m : List (ℕ × ℚ × Str)} {k : ℕ}
    {cur v : ℚ × Str} (h : dict_get m k = none) :
    dict_update (m ++ [(k, cur)]) k v = m ++ [(k, v)] := by
  induction m with
  | nil => simp [dict_update]
  | cons p rest ih =>
    rw [dict_get] at h
    by_cases hp : p.1 = k
    · rw [if_pos hp] at h
      exact absurd h (by simp)
    · rw [if_neg hp] at h
      rcases p with ⟨k2, v2⟩
      rw [List.cons_append, dict_update, if_neg hp, ih h]
      rfl

theorem consider_best_new {m : List (ℕ × ℚ × Str)} {k : ℕ} {v : ℚ × Str}
    (h : dict_get m k = none) : consider_best m k v = m ++ [(k, v)] := by
  rw [consider_best, h, dict_update_append h]

theorem consider_best_existing {m : List (ℕ × ℚ × Str)} {k : ℕ}
    {cur v : ℚ × Str} (h : dict_get m k = none) :
    consider_best (m ++ [(k, cur)]) k v
      = m ++ [(k, if v.1 > cur.1 then v else cur)] := by
  rw [consider_best, dict_get_append_single h]
  show (if v.1 > cur.1 then dict_update (m ++ [(k, cur)]) k v else m ++ [(k, cur)])
      = m ++ [(k, if v.1 > cur.1 then v else cur)]
  by_cases hv : v.1 > cur.1
  · rw [if_pos hv, dict_update_append_single h, if_pos hv]
  · rw [if_neg hv, if_neg hv]

theorem fold_one_group {k : ℕ} :
    ∀ (exs : List (ℚ × Str)) (m : List (ℕ × ℚ × Str)) (cur : ℚ × Str),
      dict_get m k = none →
      List.foldl (fun acc p => consider_best acc k p) (m ++ [(k, cur)]) exs
        = m ++ [(k, exs.foldl (fun b y => if y.1 > b.1 then y else b) cur)] := by
  intro exs
  induction exs with
  | nil => intro m cur _; rfl
  | cons e es ih =>
    intro m cur h
    rw [List.foldl_cons, consider_best_existing h, ih _ _ h, List.foldl_cons]

theorem dict_get_none_of_lt {m : List (ℕ × ℚ × Str)} {n : ℕ}
    (h : ∀ p ∈ m, p.1 < n) : dict_get m n = none := by
  induction m with
  | nil => rfl
  | cons p rest ih =>
    rw [dict_get]
    have hp := h p (by simp)
    rw [if_neg (by omega)]
    exact ih (fun p2 hp2 => h p2 (by simp [hp2]))

theorem map_zip_self {f : ℕ × Str → ℚ} :
    ∀ l : List (ℕ × Str), (l.map f).zip l = l.map (fun p => (f p, p)) := by
  intro l
  induction l with
  | nil => rfl
  | cons x xs ih => simp [ih]

theorem fold_group_str (encode : Str → List ℚ) (q : List ℚ) (k : ℕ) :
    ∀ (es : List Str) (m : List (ℕ × ℚ × Str)) (cur : ℚ × Str),
      dict_get m k = none →
      List.foldl (fun m2 (p : ℚ × ℕ × Str) => consider_best m2 p.2.1 (p.1, p.2.2))
          (m ++ [(k, cur)])
          (es.map (fun ex => (dotQ (encode ex) q, (k, ex))))
        = m ++ [(k, (es.map (fun ex => (dotQ (encode ex) q, ex))).foldl
            (fun b y => if y.1 > b.1 then y else b) cur)] := by
  intro es
  induction es with
  | nil => intro m cur _; rfl
  | cons e2 es2 ih =>
    intro m cur hget
    simp only [List.map_cons, List.foldl_cons]
    rw [consider_best_existing hget]
    exact ih m _ hget

theorem best_fold_spec (encode : Str → List ℚ) (q : List ℚ) :
    ∀ (agents : List AgentConfig) (n : ℕ) (m : List (ℕ × ℚ × Str)),
      (∀ p ∈ m, p.1 < n) →
      List.foldl (fun m2 p => consider_best m2 p.2.1 (p.1, p.2.2)) m
          ((build_e2a n agents).map (fun p => (dotQ (encode p.2) q, p)))
        = m ++ spec_best encode q n agents := by
  intro agents
  induction agents with
  | nil =>
    intro n m _
    simp [build_e2a, spec_best]
  | cons a rest ih =>
    intro n m hkeys
    rw [build_e2a, spec_best, List.map_append, List.foldl_append]
    cases hr : a.routing with
    | none =>
      simp only [List.map_nil, List.foldl_nil, List.nil_append]
      rw [ih (n + 1) m (fun p hp => by have := hkeys p hp; omega)]
    | some r =>
      cases hex : r.examples with
      | nil =>
        simp only [hex, List.map_nil, List.foldl_nil, first_max_pair, List.nil_append]
        rw [ih (n + 1) m (fun p hp => by have := hkeys p hp; omega)]
      | cons e es =>
        simp only [hex, List.map_cons, List.map_map, List.foldl_cons]
        have hget : dict_get m n = none := dict_get_none_of_lt hkeys
        rw [consider_best_new hget]
        simp only [Function.comp_def]
        rw [fold_group_str encode q n es m (dotQ (encode e) q, e) hget]
        rw [ih (n + 1) _ (by
          intro p hp
          rcases List.mem_append.mp hp with hp | hp
          · have := hkeys p hp; omega
          · rcases List.mem_singleton.mp hp with rfl
            simp)]
        rw [first_max_pair]
        rw [List.append_assoc]

theorem match_filter_eq (full : List AgentConfig) (n : ℕ) (s : ℚ) (ex : Str) :
    match_filter full (n, s, ex)
      = match full.get? n with
        | none => none
        | some a =>
          match a.routing with
          | none => none
          | some r => if s ≥ r.threshold then some (RouteMatch.mk a s ex) else none := rfl

theorem match_filter_some (full : List AgentConfig) (n : ℕ) (s : ℚ) (ex : Str)
    (a : AgentConfig) (r : AgentRoutingConfig)
    (hget : full.get? n = some a) (hr : a.routing = some r) :
    match_filter full (n, s, ex)
      = if s ≥ r.threshold then some (RouteMatch.mk a s ex) else none := by
  rw [match_filter_eq, hget]
  show (match a.routing with
        | none => none
        | some r2 => if s ≥ r2.threshold then some (RouteMatch.mk a s ex) else none) = _
  rw [hr]

theorem agent_candidate_eq (encode : Str → List ℚ) (msg : Str) (a : AgentConfig) :
    agent_candidate encode msg a
      = match a.routing with
        | none => none
        | some r =>
          match first_max_pair (r.examples.map
              (fun ex => (dotQ (encode ex) (encode msg), ex))) with
          | none => none
          | some (s, ex) =>
            if s ≥ r.threshold then some (RouteMatch.mk a s ex) else none := rfl

theorem agent_candidate_none_route (encode : Str → List ℚ) (msg : Str)
    (a : AgentConfig) (hr : a.routing = none) :
    agent_candidate encode msg a = none := by
  rw [agent_candidate_eq, hr]

theorem agent_candidate_none_fm (encode : Str → List ℚ) (msg : Str)
    (a : AgentConfig) (r : AgentRoutingConfig) (hr : a.routing = some r)
    (hfm : first_max_pair (r.examples.map
        (fun ex => (dotQ (encode ex) (encode msg), ex))) = none) :
    agent_candidate encode msg a = none := by
  rw [agent_candidate_eq, hr]
  show (match first_max_pair (r.examples.map
        (fun ex => (dotQ (encode ex) (encode msg), ex))) with
        | none => none
        | some (s, ex) =>
          if s ≥ r.threshold then some (RouteMatch.mk a s ex) else none) = none
  rw [hfm]

theorem agent_candidate_some_fm (encode : Str → List ℚ) (msg : Str)
    (a : AgentConfig) (r : AgentRoutingConfig) (s : ℚ) (ex : Str)
    (hr : a.routing = some r)
    (hfm : first_max_pair (r.examples.map
        (fun e2 => (dotQ (encode e2) (encode msg), e2))) = some (s, ex)) :
    agent_candidate encode msg a
      = if s ≥ r.threshold then some (RouteMatch.mk a s ex) else none := by
  rw [agent_candidate_eq, hr]
  show (match first_max_pair (r.examples.map
        (fun e2 => (dotQ (encode e2) (encode msg), e2))) with
        | none => none
        | some (s2, e2) =>
          if s2 ≥ r.threshold then some (RouteMatch.mk a s2 e2) else none) = _
  rw [hfm]

theorem spec_best_eq (encode : Str → List ℚ) (q : List ℚ) (n : ℕ)
    (a : AgentConfig) (rest : List AgentConfig) :
    spec_best encode q n (a :: rest)
      = (match a.routing with
         | some r =>
           match first_max_pair (r.examples.map (fun ex => (dotQ (encode ex) q, ex))) with
           | some b => [(n, b)]
           | none => []
         | none => []) ++ spec_best encode q (n + 1) rest := rfl

theorem spec_best_cons_none_route (encode : Str → List ℚ) (q : List ℚ) (n : ℕ)
    (a : AgentConfig) (rest : List AgentConfig) (hr : a.routing = none) :
    spec_best encode q n (a :: rest) = spec_best encode q (n + 1) rest := by
  rw [spec_best_eq, hr]
  rfl

theorem spec_best_cons_none_fm (encode : Str → List ℚ) (q : List ℚ) (n : ℕ)
    (a : AgentConfig) (rest : List AgentConfig) (r : AgentRoutingConfig)
    (hr : a.routing = some r)
    (hfm : first_max_pair (r.examples.map (fun ex => (dotQ (encode ex) q, ex))) = none) :
    spec_best encode q n (a :: rest) = spec_best encode q (n + 1) rest := by
  rw [spec_best_eq, hr]
  show (match first_max_pair (r.examples.map (fun ex => (dotQ (encode ex) q, ex))) with
        | some b => [(n, b)]
        | none => []) ++ spec_best encode q (n + 1) rest = _
  rw [hfm]
  rfl

theorem spec_best_cons_some (encode : Str → List ℚ) (q : List ℚ) (n : ℕ)
    (a : AgentConfig) (rest : List AgentConfig) (r : AgentRoutingConfig)
    (s : ℚ) (ex : Str) (hr : a.routing = some r)
    (hfm : first_max_pair (r.examples.map (fun e2 => (dotQ (encode e2) q, e2)))
        = some (s, ex)) :
    spec_best encode q n (a :: rest) = (n, s, ex) :: spec_best encode q (n + 1) rest := by
  rw [spec_best_eq, hr]
  show (match first_max_pair (r.examples.map (fun e2 => (dotQ (encode e2) q, e2))) with
        | some b => [(n, b)]
        | none => []) ++ spec_best encode q (n + 1) rest = _
  rw [hfm]
  rfl

theorem spec_best_filterMap (encode : Str → List ℚ) (msg : Str)
    (full : List AgentConfig) :
    ∀ (agents : List AgentConfig) (n : ℕ), full.drop n = agents →
      (spec_best encode (encode msg) n agents).filterMap (match_filter full)
        = spec_candidates encode msg agents := by
  intro agents
  induction agents with
  | nil => intro n _; rfl
  | cons a rest ih =>
    intro n hdrop
    have hget : full.get? n = some a := by
      rw [List.get?_eq_getElem?]
      have h0 : (List.drop n full)[0]? = some a := by rw [hdrop]; simp
      rw [List.getElem?_drop] at h0
      simpa using h0
    have hdrop2 : full.drop (n + 1) = rest := by
      rw [← List.drop_drop, hdrop]
      rfl
    have ih2 := ih (n + 1) hdrop2
    cases hr : a.routing with
    | none =>
      rw [spec_best_cons_none_route encode (encode msg) n a rest hr,
          spec_candidates,
          List.filterMap_cons_none (agent_candidate_none_route encode msg a hr)]
      rw [spec_candidates] at ih2
      exact ih2
    | some r =>
      cases hfm : first_max_pair (r.examples.map
          (fun e2 => (dotQ (encode e2) (encode msg), e2))) with
      | none =>
        rw [spec_best_cons_none_fm encode (encode msg) n a rest r hr hfm,
            spec_candidates,
            List.filterMap_cons_none (agent_candidate_none_fm encode msg a r hr hfm)]
        rw [spec_candidates] at ih2
        exact ih2
      | some b =>
        rcases b with ⟨s, ex⟩
        rw [spec_best_cons_some encode (encode msg) n a rest r s ex hr hfm]
        by_cases hth : s ≥ r.threshold
        · rw [List.filterMap_cons_some (b := RouteMatch.mk a s ex) (by
            rw [match_filter_some full n s ex a r hget hr, if_pos hth])]
          rw [spec_candidates,
              List.filterMap_cons_some (b := RouteMatch.mk a s ex) (by
                rw [agent_candidate_some_fm encode msg a r s ex hr hfm, if_pos hth])]
          rw [spec_candidates] at ih2
          rw [ih2]
        · rw [List.filterMap_cons_none (by
            rw [match_filter_some full n s ex a r hget hr, if_neg hth])]
          rw [spec_candidates,
              List.filterMap_cons_none (by
                rw [agent_candidate_some_fm encode msg a r s ex hr hfm, if_neg hth])]
          rw [spec_candidates] at ih2
          exact ih2

theorem spec_candidates_nil_of_e2a (encode : Str → List ℚ) (msg : Str) :
    ∀ (agents : List AgentConfig) (n : ℕ), build_e2a n agents = [] →
      spec_candidates encode msg agents = [] := by
  intro agents
  induction agents with
  | nil => intro n _; rfl
  | cons a rest ih =>
    intro n h
    rw [build_e2a] at h
    rcases List.append_eq_nil.mp h with ⟨h1, h2⟩
    have hcand : agent_candidate encode msg a = none := by
      cases hr : a.routing with
      | none => exact agent_candidate_none_route encode msg a hr
      | some r =>
        simp only [hr] at h1
        have hex : r.examples = [] := List.map_eq_nil_iff.mp h1
        refine agent_candidate_none_fm encode msg a r hr ?_
        rw [hex]
        rfl
    rw [spec_candidates, List.filterMap_cons_none hcand]
    rw [spec_candidates] at ih
    exact ih (n + 1) h2

theorem sort_le_total (a b : RouteMatch) : sort_le a b = true ∨ sort_le b a = true := by
  rw [sort_le, sort_le]
  simp only [Bool.or_eq_true, Bool.and_eq_true, decide_eq_true_eq]
  rcases lt_trichotomy a.score b.score with h | h | h
  · exact Or.inr (Or.inl h)
  · rcases le_total (match_priority a) (match_priority b) with h2 | h2
    · exact Or.inl (Or.inr ⟨h, h2⟩)
    · exact Or.inr (Or.inr ⟨h.symm, h2⟩)
  · exact Or.inl (Or.inl h)

theorem sort_le_trans (a b c : RouteMatch) (hab : sort_le a b = true)
    (hbc : sort_le b c = true) : sort_le a c = true := by
  rw [sort_le] at hab hbc ⊢
  simp only [Bool.or_eq_true, Bool.and_eq_true, decide_eq_true_eq] at hab hbc ⊢
  rcases hab with hab | ⟨hab1, hab2⟩
  · rcases hbc with hbc | ⟨hbc1, hbc2⟩
    · exact Or.inl (lt_trans hbc hab)
    · rw [hbc1] at hab
      exact Or.inl hab
  · rcases hbc with hbc | ⟨hbc1, hbc2⟩
    · rw [hab1]
      exact Or.inl hbc
    · exact Or.inr ⟨hab1.trans hbc1, hab2.trans hbc2⟩

theorem sorted_c7 (l : List RouteMatch) :
    c7_sorted (List.insertionSort (fun a b => sort_le a b = true) l) := by
  haveI : IsTotal RouteMatch (fun a b => sort_le a b = true) := ⟨sort_le_total⟩
  haveI : IsTrans RouteMatch (fun a b => sort_le a b = true) := ⟨sort_le_trans⟩
  have hs := List.sorted_insertionSort (fun a b : RouteMatch => sort_le a b = true) l
  rw [c7_sorted]
  refine List.Pairwise.imp ?_ hs
  intro m1 m2 h
  rw [sort_le] at h
  simp only [Bool.or_eq_true, Bool.and_eq_true, decide_eq_true_eq] at h
  rcases h with h | ⟨h1, h2⟩
  · exact ⟨le_of_lt h, fun he => absurd h (by rw [he]; exact lt_irrefl _)⟩
  · exact ⟨le_of_eq h1.symm, fun _ => h2⟩

theorem match_message_pipeline (encode : Str → List ℚ) (idx : SemanticIndex)
    (msg : Str) (hvalid : msg_valid msg = true)
    (hne : idx.embeddings.isEmpty = false) :
    match_message encode idx msg
      = .ok (List.insertionSort (fun a b => sort_le a b = true)
          ((best_scores_fold ((idx.embeddings.map (fun e => dotQ e (encode msg))).zip
              idx.example_to_agent)).filterMap (match_filter idx.agents))) := by
  rw [match_message, if_neg (by simp [hvalid]), if_neg (by simp [hne])]
  rfl

theorem sims_zip_e2a (encode : Str → List ℚ) (q : List ℚ) :
    ∀ l : List (ℕ × Str),
      ((l.map (fun p => encode p.2)).map (fun e => dotQ e q)).zip l
        = l.map (fun p => (dotQ (encode p.2) q, p)) := by
  intro l
  induction l with
  | nil => rfl
  | cons x xs ih => simp only [List.map_cons, List.zip_cons_cons, ih]

theorem match_message_spec_eq (encode : Str → List ℚ) (cfg : AgentsConfig)
    (msg : Str) (hvalid : msg_valid msg = true) :
    match_message encode (build_index encode cfg) msg
      = .ok (List.insertionSort (fun a b => sort_le a b = true)
          (spec_candidates encode msg cfg.agents)) := by
  cases he : build_e2a 0 cfg.agents with
  | nil =>
    rw [match_message, if_neg (by simp [hvalid]),
        if_pos (show (build_index encode cfg).embeddings.isEmpty = true by
          simp [build_index, he])]
    rw [spec_candidates_nil_of_e2a encode msg cfg.agents 0 he]
    rfl
  | cons p0 ps =>
    have hne : (build_index encode cfg).embeddings.isEmpty = false := by
      simp [build_index, he]
    have hmm := match_message_pipeline encode (build_index encode cfg) msg hvalid hne
    rw [show (build_index encode cfg).embeddings
          = (build_e2a 0 cfg.agents).map (fun p => encode p.2) from rfl] at hmm
    rw [show (build_index encode cfg).example_to_agent = build_e2a 0 cfg.agents
          from rfl] at hmm
    rw [show (build_index encode cfg).agents = cfg.agents from rfl] at hmm
    rw [sims_zip_e2a encode (encode msg) (build_e2a 0 cfg.agents)] at hmm
    rw [best_scores_fold] at hmm
    rw [best_fold_spec encode (encode msg) cfg.agents 0 []
        (by intro p hp; simp at hp)] at hmm
    rw [List.nil_append] at hmm
    rw [spec_best_filterMap encode msg cfg.agents cfg.agents 0 (by rfl)] at hmm
    exact hmm

/-- C7 (amended): for every valid message on an initialized matcher, match
returns exactly the agents whose best per-example score meets or exceeds
(is greater than or equal to) that agent's own threshold, each reported with
the maximum-scoring example belonging to that agent (earliest example on
ties), and the returned list is sorted with scores non-increasing, ties
broken by ascending agent priority. -/
theorem c7_match (encode : Str → List ℚ) (cfg : AgentsConfig) (msg : Str)
    (hvalid : msg_valid msg = true) : c7_conclusion encode cfg msg := by
  rw [c7_conclusion]
  exact ⟨_, match_message_spec_eq encode cfg msg hvalid, rfl, sorted_c7 _⟩

/-- Counterexample to claim C7 as stated: with the constant embedding,
agent alpha's best per-example score is exactly its threshold 1 - it does
not strictly exceed it - yet match returns it, because the source keeps a
candidate when score >= threshold. -/
theorem c7_counterexample :
    match_message encode_one (build_index encode_one cfg_alpha) ("go".data)
      = .ok [{ agent := agent_alpha, score := 1, example_text := "hi".data }]
    ∧ agent_alpha.routing
      = some { priority := 1, threshold := 1, examples := ["hi".data] } := by
  constructor
  · have hsc : spec_candidates encode_one ("go".data) cfg_alpha.agents
        = [{ agent := agent_alpha, score := 1, example_text := "hi".data }] := by
      simp [spec_candidates, cfg_alpha, agent_candidate, agent_alpha, agent_beta,
            first_max_pair, dotQ, encode_one]
    rw [match_message_spec_eq encode_one cfg_alpha ("go".data) (by decide), hsc]
    rfl
  · rfl

/-- Witness for c7_match: a concrete valid message on the concrete catalog. -/
theorem c7_match_witness :
    msg_valid ("go".data) = true ∧ c7_conclusion encode_one cfg_alpha ("go".data) :=
  ⟨by decide, c7_match encode_one cfg_alpha ("go".data) (by decide)⟩

theorem finish_routing_method (cfg : AgentsConfig) (now : ℚ) (thread_id : Str)
    (a : AgentConfig) (method : RoutingMethod) (score : Option ℚ) (td : Bool)
    (store : Option SessionStore) :
    (finish_routing cfg now thread_id a method score td store).method = method := rfl

theorem finish_routing_agent (cfg : AgentsConfig) (now : ℚ) (thread_id : Str)
    (a : AgentConfig) (method : RoutingMethod) (score : Option ℚ) (td : Bool)
    (store : Option SessionStore) :
    (finish_routing cfg now thread_id a method score td store).agent = a := rfl

theorem finish_store_write (cfg : AgentsConfig) (now : ℚ) (thread_id : Str)
    (a : AgentConfig) (method : RoutingMethod) (score : Option ℚ) (td : Bool)
    (st : SessionStore) (hsticky : cfg.session.sticky_enabled = true) :
    ∃ st2, (finish_routing cfg now thread_id a method score td (some st)).store = some st2
      ∧ st2.sessions thread_id = some
          { thread_id := thread_id, agent_id := a.id,
            agent_handle := a.handles.headD [], created_at := now,
            last_activity := now } := by
  refine ⟨store_set now st thread_id a.id (a.handles.headD []), ?_, ?_⟩
  · simp [finish_routing, hsticky]
  · simp [store_set]

theorem finish_store_touch (cfg : AgentsConfig) (now : ℚ) (thread_id : Str)
    (a : AgentConfig) (method : RoutingMethod) (score : Option ℚ) (td : Bool)
    (st : SessionStore) (hsticky : cfg.session.sticky_enabled = false) :
    (finish_routing cfg now thread_id a method score td (some st)).store = some st := by
  simp [finish_routing, hsticky]

theorem store_get_some_inv (now : ℚ) (st : SessionStore) (thread_id : Str)
    (sess : SessionState) (st1 : SessionStore)
    (h : store_get now st thread_id = (some sess, st1)) :
    st1 = st ∧ st.sessions thread_id = some sess
      ∧ is_expired now sess st.timeout_minutes = false := by
  rw [store_get] at h
  cases hs : st.sessions thread_id with
  | none =>
    simp only [hs] at h
    simp at h
  | some s =>
    simp only [hs] at h
    cases he : is_expired now s st.timeout_minutes with
    | true =>
      rw [if_pos he] at h
      simp at h
    | false =>
      rw [if_neg (by simp [he])] at h
      simp only [Prod.mk.injEq, Option.some.injEq] at h
      obtain ⟨h1, h2⟩ := h
      refine ⟨h2.symm, ?_, ?_⟩
      · rw [h1]
      · rw [← h1]
        exact he

theorem store_touch_live (now : ℚ) (st : SessionStore) (thread_id : Str)
    (s : SessionState) (hs : st.sessions thread_id = some s)
    (he : is_expired now s st.timeout_minutes = false) :
    ((store_touch now st thread_id).2).sessions thread_id
      = some { s with last_activity := now } := by
  simp [store_touch, hs, he]

theorem get_agent_by_id_id (cfg : AgentsConfig) (x : Str) (a : AgentConfig)
    (h : get_agent_by_id cfg x = some a) : a.id = x := by
  rw [get_agent_by_id] at h
  have h2 := List.find?_some h
  simpa using h2

theorem match_best_ok (encode : Str → List ℚ) (idx : SemanticIndex) (msg : Str)
    (hvalid : msg_valid msg = true) :
    ∃ mb, match_best encode idx msg = .ok mb := by
  rw [match_best, match_message, if_neg (by simp [hvalid])]
  by_cases he : idx.embeddings.isEmpty
  · rw [if_pos he]
    exact ⟨none, rfl⟩
  · rw [if_neg he]
    exact ⟨_, rfl⟩

theorem route_step3_semantic (encode : Str → List ℚ) (idx : SemanticIndex)
    (cfg : AgentsConfig) (llm : Except Unit (Option AgentConfig)) (now : ℚ)
    (msg thread_id : Str) (store1 : Option SessionStore) (td : Bool)
    (m : RouteMatch) (hmbe : match_best encode idx msg = .ok (some m)) :
    route_step3 encode idx cfg llm now msg thread_id store1 td
      = .ok (finish_routing cfg now thread_id m.agent .semantic (some m.score)
          td store1) := by
  rw [route_step3.eq_def, hmbe]

theorem route_step3_nomatch (encode : Str → List ℚ) (idx : SemanticIndex)
    (cfg : AgentsConfig) (llm : Except Unit (Option AgentConfig)) (now : ℚ)
    (msg thread_id : Str) (store1 : Option SessionStore) (td : Bool)
    (dflt : AgentConfig) (hmbe : match_best encode idx msg = .ok none)
    (hdflt : get_default_agent cfg = some dflt) :
    route_step3 encode idx cfg llm now msg thread_id store1 td
      = match llm_choice cfg llm with
        | some a =>
          .ok (finish_routing cfg now thread_id a .llm_fallback none td store1)
        | none =>
          .ok (finish_routing cfg now thread_id dflt .default_agent none td store1) := by
  rw [route_step3.eq_def, hmbe]
  show (match get_default_agent cfg with
        | none => Except.error RouterErr.default_agent_missing
        | some dflt2 =>
          match llm_choice cfg llm with
          | some a2 =>
            .ok (finish_routing cfg now thread_id a2 .llm_fallback none td store1)
          | none =>
            .ok (finish_routing cfg now thread_id dflt2 .default_agent none td store1)) = _
  rw [hdflt]

theorem c1_step3_case (encode : Str → List ℚ) (idx : SemanticIndex)
    (cfg : AgentsConfig) (llm : Except Unit (Option AgentConfig)) (now : ℚ)
    (msg thread_id : Str) (dflt : AgentConfig) (store1 : Option SessionStore)
    (td : Bool) (hvalid : msg_valid msg = true)
    (hdflt : get_default_agent cfg = some dflt) :
    ∃ r, route_step3 encode idx cfg llm now msg thread_id store1 td = .ok r
      ∧ (match match_best encode idx msg with
         | .ok (some m) =>
           r.method = .semantic ∧ r.agent = m.agent ∧ r.score = some m.score
         | .ok none =>
           match llm_choice cfg llm with
           | some a => r.method = .llm_fallback ∧ r.agent = a
           | none => r.method = .default_agent ∧ r.agent = dflt
         | .error _ => False)
      ∧ (∀ st1, store1 = some st1 → cfg.session.sticky_enabled = true →
          ∃ st2, r.store = some st2
            ∧ st2.sessions thread_id = some
                { thread_id := thread_id, agent_id := r.agent.id,
                  agent_handle := r.agent.handles.headD [],
                  created_at := now, last_activity := now })
      ∧ r.method ≠ .sticky := by
  obtain ⟨mb, hmbe⟩ := match_best_ok encode idx msg hvalid
  cases mb with
  | some m =>
    refine ⟨finish_routing cfg now thread_id m.agent .semantic (some m.score) td store1,
      route_step3_semantic encode idx cfg llm now msg thread_id store1 td m hmbe,
      ?_, ?_, ?_⟩
    · simp only [hmbe]
      exact ⟨rfl, rfl, rfl⟩
    · intro st1 h1 hsticky
      subst h1
      exact finish_store_write cfg now thread_id m.agent .semantic (some m.score)
        td st1 hsticky
    · rw [finish_routing_method]
      decide
  | none =>
    cases hl : llm_choice cfg llm with
    | some a =>
      refine ⟨finish_routing cfg now thread_id a .llm_fallback none td store1, ?_, ?_, ?_, ?_⟩
      · rw [route_step3_nomatch encode idx cfg llm now msg thread_id store1 td dflt
            hmbe hdflt, hl]
      · simp only [hmbe, hl]
        exact ⟨rfl, rfl⟩
      · intro st1 h1 hsticky
        subst h1
        exact finish_store_write cfg now thread_id a .llm_fallback none td st1 hsticky
      · rw [finish_routing_method]
        decide
    | none =>
      refine ⟨finish_routing cfg now thread_id dflt .default_agent none td store1, ?_, ?_, ?_, ?_⟩
      · rw [route_step3_nomatch encode idx cfg llm now msg thread_id store1 td dflt
            hmbe hdflt, hl]
      · simp only [hmbe, hl]
        exact ⟨rfl, rfl⟩
      · intro st1 h1 hsticky
        subst h1
        exact finish_store_write cfg now thread_id dflt .default_agent none td st1 hsticky
      · rw [finish_routing_method]
        decide


/-- C1: for every incoming chat request with a valid message and a
resolvable default agent, the routing method chosen by _route_with_sessions
is the earliest qualifying step in the fixed order mention, sticky,
semantic, llm_fallback, default: a resolvable mention handle wins;
otherwise a live non-drifted sticky session's agent is chosen and the
session touched; otherwise the best semantic match above threshold;
otherwise the agent returned by the LLM classifier; otherwise the default
agent. After selection, when sticky sessions are enabled, the session for
the thread is written (created or overwritten) with the chosen agent's
first handle. -/
theorem c1_routing_cascade (encode : Str → List ℚ) (idx : SemanticIndex)
    (cfg : AgentsConfig) (llm : Except Unit (Option AgentConfig)) (now : ℚ)
    (msg thread_id : Str) (store0 : Option SessionStore) (dflt : AgentConfig)
    (hvalid : msg_valid msg = true)
    (hdflt : get_default_agent cfg = some dflt) :
    c1_conclusion encode idx cfg llm now msg thread_id store0 dflt := by
  rw [c1_conclusion]
  cases hm : mention_choice cfg msg with
  | some a =>
    refine ⟨finish_routing cfg now thread_id a .mention none false store0, ?_, ?_, ?_, ?_⟩
    · rw [route_with_sessions.eq_def,
          show (parse_mention msg).bind (fun h => get_agent_by_handle cfg h)
            = some a from hm]
    · simp only [hm]
      exact ⟨rfl, rfl⟩
    · intro st hst hsticky
      subst hst
      exact finish_store_write cfg now thread_id a .mention none false st hsticky
    · intro st hst hmeth
      rw [finish_routing_method] at hmeth
      cases hmeth
  | none =>
    cases store0 with
    | none =>
      obtain ⟨r, hr, hconc, hstore, hns⟩ := c1_step3_case encode idx cfg llm now msg
        thread_id dflt none false hvalid hdflt
      refine ⟨r, ?_, ?_, ?_, ?_⟩
      · rw [route_with_sessions.eq_def,
            show (parse_mention msg).bind (fun h => get_agent_by_handle cfg h)
              = (none : Option AgentConfig) from hm]
        exact hr
      · simp only [hm]
        exact hconc
      · intro st hst hsticky
        exact Option.noConfusion hst
      · intro st hst hmeth
        exact Option.noConfusion hst
    | some st =>
      cases hg : store_get now st thread_id with
      | mk og st1 =>
        cases og with
        | none =>
          have hsc : sticky_choice encode idx cfg now msg thread_id (some st) = none := by
            simp only [sticky_choice, hg]
          obtain ⟨r, hr, hconc, hstore, hns⟩ := c1_step3_case encode idx cfg llm now msg
            thread_id dflt (some st1) false hvalid hdflt
          refine ⟨r, ?_, ?_, ?_, ?_⟩
          · rw [route_with_sessions.eq_def,
                show (parse_mention msg).bind (fun h => get_agent_by_handle cfg h)
                  = (none : Option AgentConfig) from hm]
            simp only [hg]
            exact hr
          · simp only [hm, hsc]
            exact hconc
          · intro st2 hst2 hsticky
            exact hstore st1 rfl hsticky
          · intro st2 hst2 hmeth
            exact absurd hmeth hns
        | some sess =>
          cases ha : get_agent_by_id cfg sess.agent_id with
          | none =>
            have hsc : sticky_choice encode idx cfg now msg thread_id (some st) = none := by
              simp only [sticky_choice, hg, ha]
            obtain ⟨r, hr, hconc, hstore, hns⟩ := c1_step3_case encode idx cfg llm now msg
              thread_id dflt (some st1) false hvalid hdflt
            refine ⟨r, ?_, ?_, ?_, ?_⟩
            · rw [route_with_sessions.eq_def,
                  show (parse_mention msg).bind (fun h => get_agent_by_handle cfg h)
                    = (none : Option AgentConfig) from hm]
              simp only [hg, ha]
              exact hr
            · simp only [hm, hsc]
              exact hconc
            · intro st2 hst2 hsticky
              exact hstore st1 rfl hsticky
            · intro st2 hst2 hmeth
              exact absurd hmeth hns
          | some sticky_agent =>
            cases hd : (detect_topic_drift encode idx msg sticky_agent
                cfg.session.topic_drift_threshold).drifted with
            | true =>
              have hsc : sticky_choice encode idx cfg now msg thread_id (some st) = none := by
                simp only [sticky_choice, hg, ha]
                rw [if_pos hd]
              obtain ⟨r, hr, hconc, hstore, hns⟩ := c1_step3_case encode idx cfg llm now msg
                thread_id dflt (some (store_delete st1 thread_id).2) true hvalid hdflt
              refine ⟨r, ?_, ?_, ?_, ?_⟩
              · rw [route_with_sessions.eq_def,
                    show (parse_mention msg).bind (fun h => get_agent_by_handle cfg h)
                      = (none : Option AgentConfig) from hm]
                simp only [hg, ha]
                rw [if_pos hd]
                exact hr
              · simp only [hm, hsc]
                exact hconc
              · intro st2 hst2 hsticky
                exact hstore _ rfl hsticky
              · intro st2 hst2 hmeth
                exact absurd hmeth hns
            | false =>
              have hsc : sticky_choice encode idx cfg now msg thread_id (some st)
                  = some (sticky_agent, (detect_topic_drift encode idx msg sticky_agent
                      cfg.session.topic_drift_threshold).similarity_score) := by
                simp only [sticky_choice, hg, ha]
                rw [if_neg (by simp [hd])]
              refine ⟨finish_routing cfg now thread_id sticky_agent .sticky
                  (some ((detect_topic_drift encode idx msg sticky_agent
                    cfg.session.topic_drift_threshold).similarity_score)) false
                  (some (store_touch now st1 thread_id).2), ?_, ?_, ?_, ?_⟩
              · rw [route_with_sessions.eq_def,
                    show (parse_mention msg).bind (fun h => get_agent_by_handle cfg h)
                      = (none : Option AgentConfig) from hm]
                simp only [hg, ha]
                rw [if_neg (by simp [hd])]
              · simp only [hm, hsc]
                exact ⟨rfl, rfl, rfl⟩
              · intro st2 hst2 hsticky
                exact finish_store_write cfg now thread_id sticky_agent .sticky _ false
                  ((store_touch now st1 thread_id).2) hsticky
              · intro st2 hst2 hmeth
                cases hen : cfg.session.sticky_enabled with
                | true =>
                  obtain ⟨st3, hh1, hh2⟩ := finish_store_write cfg now thread_id
                    sticky_agent .sticky (some ((detect_topic_drift encode idx msg
                      sticky_agent cfg.session.topic_drift_threshold).similarity_score))
                    false ((store_touch now st1 thread_id).2) hen
                  exact ⟨st3, _, hh1, hh2, rfl, rfl⟩
                | false =>
                  obtain ⟨hst1eq, hsess, hexp⟩ := store_get_some_inv now st thread_id
                    sess st1 hg
                  refine ⟨(store_touch now st1 thread_id).2,
                    { sess with last_activity := now },
                    finish_store_touch cfg now thread_id sticky_agent .sticky
                      (some ((detect_topic_drift encode idx msg sticky_agent
                        cfg.session.topic_drift_threshold).similarity_score)) false
                      ((store_touch now st1 thread_id).2) hen, ?_, rfl, ?_⟩
                  · rw [hst1eq]
                    exact store_touch_live now st thread_id sess hsess hexp
                  · show sess.agent_id = sticky_agent.id
                    exact (get_agent_by_id_id cfg sess.agent_id sticky_agent ha).symm

/-- Witness for c1_routing_cascade: concrete catalog, store and message. -/
theorem c1_routing_cascade_witness :
    msg_valid ("go".data) = true
    ∧ get_default_agent cfg_alpha = some agent_beta
    ∧ c1_conclusion encode_one (build_index encode_one cfg_alpha) cfg_alpha
        (Except.ok none) 0 ("go".data) ("t1".data) (some store_t1) agent_beta :=
  ⟨by decide, by rfl,
   c1_routing_cascade encode_one (build_index encode_one cfg_alpha) cfg_alpha
     (Except.ok none) 0 ("go".data) ("t1".data) (some store_t1) agent_beta
     (by decide) (by rfl)⟩
